import Mathlib

/-!
Verification of the listening-history synchronization and import engine of
the your_tidal repository.  The definitions below are a shallow embedding of
the TypeScript source: timestamps are modelled as integers (milliseconds
since the epoch), durations as naturals (milliseconds unless noted), ids and
names as strings, and the persistent store as explicit lists threaded through
the functions.  Functions of the repository keep their source names where
possible; helpers whose implementation is not part of the provided sources
(the database query getCloseTrackId, the misc string helpers and the import
cache) are modelled from the specification and marked as such.
-/

namespace YourTidal

/-- A TIDAL track as the importers see it: id, title, duration in seconds,
the artist ids of relationships.artists.data and the album id of
relationships.album.data (src track schema). -/
structure TidalTrack where
  id : String
  title : String
  duration : Nat
  artistIds : List String
  albumId : String
deriving DecidableEq, Repr

/-- A RecentlyPlayedTrack: a track together with the time it was played at
(modelled as milliseconds since the epoch). -/
structure TrackItem where
  track : TidalTrack
  played_at : Int
deriving DecidableEq, Repr

/-- The fields of an Infos record as built by the importers and the sync
loop (Omit of Infos without the owner). -/
structure Infos where
  played_at : Int
  id : String
  primaryArtistId : String
  albumId : String
  artistIds : List String
  durationMs : Nat
  blacklistedBy : Option String := none
deriving DecidableEq, Repr

/-- A stored playback event: an Infos record together with its owner. -/
structure Event where
  owner : String
  info : Infos
deriving DecidableEq, Repr

/-- One query made against the store to decide duplication, recording the
window it was made with. -/
structure DedupQuery where
  owner : String
  trackId : String
  date : Int
  windowSeconds : Nat
deriving DecidableEq, Repr

/-- Modelled from the spec: getCloseTrackId is declared in the database layer
which is not among the provided sources; per the specification it queries the
store for any existing PlaybackEvent of the same owner and track whose
timestamp lies within windowSeconds of the candidate. -/
def getCloseTrackId (store : List Event) (owner trackId : String) (date : Int)
    (windowSeconds : Nat) : List Event :=
  store.filter (fun e =>
    e.owner == owner && e.info.id == trackId &&
      decide ((e.info.played_at - date).natAbs ≤ windowSeconds * 1000))

/-- Association list lookup, keeping JavaScript object/map semantics. -/
def alookup {α β : Type} [BEq α] (l : List (α × β)) (k : α) : Option β :=
  (l.find? (fun p => p.1 == k)).map (·.2)

/-- Association list insertion: updating an existing key keeps its position,
a new key is appended, as for JavaScript object keys. -/
def aset {α β : Type} [BEq α] (l : List (α × β)) (k : α) (v : β) :
    List (α × β) :=
  if (l.find? (fun p => p.1 == k)).isSome then
    l.map (fun p => if p.1 == k then (k, v) else p)
  else l ++ [(k, v)]

/-- Association list removal of a key. -/
def aremove {α β : Type} [BEq α] (l : List (α × β)) (k : α) : List (α × β) :=
  l.filter (fun p => !(p.1 == k))

/-- Modelled from the spec: removeDiacritics lives in tools/misc which is not
among the provided sources; per the specification it strips diacritics from a
name.  We model it on a representative set of accented characters. -/
def stripDiacritic (c : Char) : Char :=
  if c = 'é' ∨ c = 'è' ∨ c = 'ê' ∨ c = 'ë' then 'e'
  else if c = 'á' ∨ c = 'à' ∨ c = 'â' ∨ c = 'ä' then 'a'
  else if c = 'í' ∨ c = 'ì' ∨ c = 'î' ∨ c = 'ï' then 'i'
  else if c = 'ó' ∨ c = 'ò' ∨ c = 'ô' ∨ c = 'ö' then 'o'
  else if c = 'ú' ∨ c = 'ù' ∨ c = 'û' ∨ c = 'ü' then 'u'
  else if c = 'ñ' then 'n'
  else if c = 'ç' then 'c'
  else c

/-- Modelled from the spec: removeDiacritics strips diacritics from every
character of the name. -/
def removeDiacritics (s : String) : String :=
  String.mk (s.toList.map stripDiacritic)

/-- Modelled from the spec: beforeParenthesis lives in tools/misc which is
not among the provided sources; per the specification it removes a trailing
parenthetical qualifier, keeping the text before the first opening
parenthesis with trailing spaces dropped. -/
def beforeParenthesis (s : String) : String :=
  String.mk (((s.toList.takeWhile (fun c => c ≠ '(')).reverse.dropWhile
    (fun c => c = ' ')).reverse)

/-- A cache value: either a resolved track or the sentinel that the lookup
definitively found nothing (the exists flag of TidalTrackCacheItem). -/
inductive CacheVal
  | notFound
  | found (track : TidalTrack)
deriving DecidableEq, Repr

/-- Observable actions of an importer run: external search calls, batched
track fetches, cache lookups, metadata resolution of a flushed batch, the
persisted cursor write, the persisted event write, and a marker for each
source entry the loop visits. -/
inductive Effect
  | searchCall (track artist : String)
  | getTracksCall (ids : List String)
  | cacheLookupName (trackName artistName : String)
  | cacheLookupId (id : String)
  | metaResolve (trackIds : List String)
  | setCursor (n : Nat)
  | addEvents (infos : List Infos)
  | visit (i : Nat)
deriving DecidableEq, Repr

/-- True for the per-entry visit marker, false for every real action. -/
def Effect.isVisit : Effect → Bool
  | .visit _ => true
  | _ => false

/-- True for an external search call. -/
def Effect.isSearchCall : Effect → Bool
  | .searchCall _ _ => true
  | _ => false

/-- The persisted part of an importer run: the stored events and the
checkpointed cursor of the ImporterState. -/
structure PState where
  events : List Event
  checkpoint : Nat
deriving DecidableEq, Repr

/-- Replaying one logged write against the persisted state; reads and
in-memory actions leave it unchanged. -/
def applyWrite (u : String) (p : PState) : Effect → PState
  | .setCursor n => { p with checkpoint := n }
  | .addEvents l => { p with events := p.events ++ l.map (fun i => ⟨u, i⟩) }
  | _ => p

/-- Replaying a prefix of the logged actions against the persisted state:
the store a kill at that point leaves behind. -/
def applyWrites (u : String) (p : PState) (log : List Effect) : PState :=
  log.foldl (applyWrite u) p

namespace PrivacyImporter

/-- One entry of a privacy export file (the fuzzy, name-based schema):
endTime, artistName, trackName, msPlayed. -/
structure PrivacyItem where
  endTime : Int
  artistName : String
  trackName : String
  msPlayed : Nat
deriving DecidableEq, Repr

/-- The external search, as a deterministic oracle from a (track, artist)
query to the best match, mirroring TidalAPI.search returning the first
included track or undefined. -/
abbrev SearchOracle := String → String → Option TidalTrack

/-- PrivacyImporter.trySearching: search with the diacritic-stripped names
and, on a miss, with the diacritic-stripped names truncated before a
parenthesis; the second component records the queries issued in order. -/
def trySearching (oracle : SearchOracle) (artistName trackName : String) :
    CacheVal × List Effect :=
  let t1 := removeDiacritics trackName
  let a1 := removeDiacritics artistName
  match oracle t1 a1 with
  | some tr => (.found tr, [.searchCall t1 a1])
  | none =>
    let t2 := removeDiacritics (beforeParenthesis trackName)
    let a2 := removeDiacritics (beforeParenthesis artistName)
    match oracle t2 a2 with
    | some tr => (.found tr, [.searchCall t1 a1, .searchCall t2 a2])
    | none => (.notFound, [.searchCall t1 a1, .searchCall t2 a2])

/-- The loop body of PrivacyImporter.storeItems for one item of the batch:
the store is queried with a 60 second window, the in-flight batch is scanned
for any already kept entry within 60000 ms of the candidate, and a surviving
item with a primary artist is appended; the second accumulator component
records the store queries made. -/
def storeItemsStep (store : List Event) (owner : String)
    (acc : List Infos × List DedupQuery) (item : TrackItem) :
    List Infos × List DedupQuery :=
  let date := item.played_at
  let q : DedupQuery := ⟨owner, item.track.id, date, 60⟩
  let dup := getCloseTrackId store owner item.track.id date 60
  let currentImportDuplicate := acc.1.find?
    (fun e => decide ((e.played_at - date).natAbs ≤ 60 * 1000))
  if dup.length > 0 ∨ currentImportDuplicate.isSome then
    (acc.1, acc.2 ++ [q])
  else
    match item.track.artistIds with
    | [] => (acc.1, acc.2 ++ [q])
    | primaryArtist :: _ =>
      (acc.1 ++ [{ played_at := date, id := item.track.id,
                   primaryArtistId := primaryArtist,
                   albumId := item.track.albumId,
                   artistIds := item.track.artistIds,
                   durationMs := item.track.duration * 1000 }],
       acc.2 ++ [q])

/-- The deduplicating loop of PrivacyImporter.storeItems over a batch. -/
def storeItemsDedup (store : List Event) (owner : String)
    (items : List TrackItem) : List Infos × List DedupQuery :=
  items.foldl (storeItemsStep store owner) ([], [])

/-- The infos PrivacyImporter.storeItems would persist for a batch. -/
def buildFinalInfos (store : List Event) (owner : String)
    (items : List TrackItem) : List Infos :=
  (storeItemsDedup store owner items).1

/-- The in-memory state of a PrivacyImporter run: current loop index, the
accumulated batch, the per-run cache keyed by (trackName, artistName), the
stored events, the persisted cursor, the action log, and the persisted
states observed at each batch boundary. -/
structure RunSt where
  cur : Nat
  items : List TrackItem
  cache : List ((String × String) × CacheVal)
  events : List Event
  cp : Nat
  log : List Effect
  bounds : List PState
deriving DecidableEq, Repr

/-- PrivacyImporter.storeItems as a state transformer: resolve metadata for
the batch, advance the persisted cursor to currentItem + 1, then append the
deduplicated infos to the store, recording a batch boundary afterwards. -/
def flush (u : String) (st : RunSt) : RunSt :=
  let finalInfos := buildFinalInfos st.events u st.items
  let newEvents := st.events ++ finalInfos.map (fun i => ⟨u, i⟩)
  { st with
    events := newEvents
    cp := st.cur + 1
    items := []
    log := st.log ++ [.metaResolve (st.items.map (·.track.id)),
                      .setCursor (st.cur + 1), .addEvents finalInfos]
    bounds := st.bounds ++ [⟨newEvents, st.cur + 1⟩] }

/-- The body of the run loop for one entry (after the currentItem update):
entries played less than 30000 ms are skipped before anything else;
otherwise the cache is consulted and on a miss trySearching runs and its
result, positive or negative, is cached; an existing track is appended to
the batch. -/
def processEntry (oracle : SearchOracle) (e : PrivacyItem) (st : RunSt) :
    RunSt :=
  if e.msPlayed < 30 * 1000 then st
  else
    let key := (e.trackName, e.artistName)
    let hit := alookup st.cache key
    let item := match hit with
      | some v => v
      | none => (trySearching oracle e.artistName e.trackName).1
    let newLog := match hit with
      | some _ => [Effect.cacheLookupName e.trackName e.artistName]
      | none => Effect.cacheLookupName e.trackName e.artistName ::
          (trySearching oracle e.artistName e.trackName).2
    let newCache := match hit with
      | some _ => st.cache
      | none => st.cache ++ [(key, item)]
    { st with
      cache := newCache
      log := st.log ++ newLog
      items := st.items ++ (match item with
        | .found tr => [⟨tr, e.endTime⟩]
        | .notFound => []) }

/-- One iteration of the run loop at absolute index i: record the visit,
set currentItem, process the entry, and flush as soon as 20 items have
accumulated. -/
def step (oracle : SearchOracle) (u : String) (i : Nat) (e : PrivacyItem)
    (st : RunSt) : RunSt :=
  let st := { st with cur := i, log := st.log ++ [.visit i] }
  let st := processEntry oracle e st
  if 20 ≤ st.items.length then flush u st else st

/-- The run loop over the remaining entries, carrying the absolute index. -/
def runEntries (oracle : SearchOracle) (u : String) :
    Nat → List PrivacyItem → RunSt → RunSt
  | _, [], st => st
  | i, e :: rest, st => runEntries oracle u (i + 1) rest (step oracle u i e st)

/-- The tail of PrivacyImporter.run: flush the remaining partial batch. -/
def finish (u : String) (st : RunSt) : RunSt :=
  if 0 < st.items.length then flush u st else st

/-- PrivacyImporter.run started from a persisted state: init sets
currentItem to the checkpointed cursor and the loop processes elements from
there; a fresh uninterrupted run is the special case of checkpoint 0 on the
initial store. -/
def resumeRun (oracle : SearchOracle) (u : String)
    (elements : List PrivacyItem) (p : PState) : RunSt :=
  finish u (runEntries oracle u p.checkpoint (elements.drop p.checkpoint)
    { cur := p.checkpoint, items := [], cache := [], events := p.events,
      cp := p.checkpoint, log := [], bounds := [p] })

end PrivacyImporter

namespace FullPrivacyImporter

/-- One entry of a full privacy export file (the exact, URI-based schema):
ts, ms_played, and the nullable tidal_track_uri and name fields. -/
structure FullPrivacyItem where
  ts : Int
  ms_played : Nat
  tidal_track_uri : Option String
  master_metadata_track_name : Option String
  master_metadata_album_artist_name : Option String
deriving DecidableEq, Repr

/-- Splitting a character list at every occurrence of a separator, with the
semantics of the JavaScript string split. -/
def splitOnChar (c : Char) : List Char → List (List Char)
  | [] => [[]]
  | x :: xs =>
    let r := splitOnChar c xs
    if x = c then [] :: r
    else
      match r with
      | [] => [[x]]
      | y :: ys => (x :: y) :: ys

/-- FullPrivacyImporter.idFromTidalURI: the third colon-separated component
of the URI. -/
def idFromTidalURI (uri : String) : Option String :=
  (((splitOnChar ':' uri.toList).map (fun l => String.mk l)).get? 2)

/-- The external per-id track fetch as a deterministic oracle, mirroring
TidalAPI.getTracks pushing null for a failed id. -/
abbrev IdOracle := String → Option TidalTrack

/-- The loop body of FullPrivacyImporter.storeItems for one item, identical
in structure to the PrivacyImporter one: store query with a 60 second
window, in-batch scan for any kept entry within 60000 ms, primary artist
required. -/
def storeItemsStep (store : List Event) (owner : String)
    (acc : List Infos × List DedupQuery) (item : TrackItem) :
    List Infos × List DedupQuery :=
  let date := item.played_at
  let q : DedupQuery := ⟨owner, item.track.id, date, 60⟩
  let dup := getCloseTrackId store owner item.track.id date 60
  let currentImportDuplicate := acc.1.find?
    (fun e => decide ((e.played_at - date).natAbs ≤ 60 * 1000))
  if dup.length > 0 ∨ currentImportDuplicate.isSome then
    (acc.1, acc.2 ++ [q])
  else
    match item.track.artistIds with
    | [] => (acc.1, acc.2 ++ [q])
    | primaryArtist :: _ =>
      (acc.1 ++ [{ played_at := date, id := item.track.id,
                   primaryArtistId := primaryArtist,
                   albumId := item.track.albumId,
                   artistIds := item.track.artistIds,
                   durationMs := item.track.duration * 1000 }],
       acc.2 ++ [q])

/-- The deduplicating loop of FullPrivacyImporter.storeItems over a batch. -/
def storeItemsDedup (store : List Event) (owner : String)
    (items : List TrackItem) : List Infos × List DedupQuery :=
  items.foldl (storeItemsStep store owner) ([], [])

/-- The infos FullPrivacyImporter.storeItems would persist for a batch. -/
def buildFinalInfos (store : List Event) (owner : String)
    (items : List TrackItem) : List Infos :=
  (storeItemsDedup store owner items).1

/-- The in-memory state of a FullPrivacyImporter run: loop index, batch,
per-run cache keyed by tidal id, the queued unresolved lookups mapping each
id to its played-at list, stored events, persisted cursor, action log and
batch boundaries. -/
structure FRunSt where
  cur : Nat
  items : List TrackItem
  cache : List (String × CacheVal)
  idsToSearch : List (String × List Int)
  events : List Event
  cp : Nat
  log : List Effect
  bounds : List PState
deriving DecidableEq, Repr

/-- FullPrivacyImporter.storeItems as a state transformer, identical to the
fuzzy one: metadata resolve, cursor write to currentItem + 1, then the event
write, recording a batch boundary. -/
def flush (u : String) (st : FRunSt) : FRunSt :=
  let finalInfos := buildFinalInfos st.events u st.items
  let newEvents := st.events ++ finalInfos.map (fun i => ⟨u, i⟩)
  { st with
    events := newEvents
    cp := st.cur + 1
    items := []
    log := st.log ++ [.metaResolve (st.items.map (·.track.id)),
                      .setCursor (st.cur + 1), .addEvents finalInfos]
    bounds := st.bounds ++ [⟨newEvents, st.cur + 1⟩] }

/-- The result-processing loop of checkIdsToSearch over the fetched ids:
a null result caches the queried id as absent; a found track is cached and
one batch item is appended for every queued played-at of its id. -/
def processSearched (idsMap : List (String × List Int)) :
    List (String × Option TidalTrack) → FRunSt → FRunSt
  | [], st => st
  | (id, none) :: rest, st =>
    processSearched idsMap rest
      { st with cache := st.cache ++ [(id, .notFound)] }
  | (_, some tr) :: rest, st =>
    match alookup idsMap tr.id with
    | none => processSearched idsMap rest st
    | some playedAts =>
      processSearched idsMap rest
        { st with
          cache := st.cache ++ [(tr.id, .found tr)]
          items := st.items ++ playedAts.map (fun pa => ⟨tr, pa⟩) }

/-- FullPrivacyImporter.checkIdsToSearch: below 45 distinct queued ids and
without force it is a no-op; otherwise all queued ids are resolved in one
batched fetch (the fetch is skipped entirely for an empty queue, as search
returns early on an empty id list) and the queue is cleared. -/
def checkIdsToSearch (oracle : IdOracle) (force : Bool) (st : FRunSt) :
    FRunSt :=
  let ids := st.idsToSearch.map (·.1)
  if ids.length < 45 ∧ force = false then st
  else
    let st' := if ids.isEmpty then st
      else { st with log := st.log ++ [.getTracksCall ids] }
    let searched := ids.map (fun id => (id, oracle id))
    let st'' := processSearched st.idsToSearch searched st'
    { st'' with idsToSearch := [] }

/-- The body of the run loop for one entry: entries with a null URI or null
names are skipped, then entries played less than 30000 ms are skipped,
then the id is extracted from the URI (an empty or missing component is
skipped); a cache hit on an existing track is appended to the batch, a
cache miss queues the entry and runs checkIdsToSearch without force. -/
def processEntry (oracle : IdOracle) (e : FullPrivacyItem) (st : FRunSt) :
    FRunSt :=
  match e.tidal_track_uri, e.master_metadata_track_name,
      e.master_metadata_album_artist_name with
  | some uri, some _, some _ =>
    if e.ms_played < 30 * 1000 then st
    else
      match idFromTidalURI uri with
      | none => st
      | some tidalId =>
        if tidalId = "" then st
        else
          let st := { st with log := st.log ++ [.cacheLookupId tidalId] }
          match alookup st.cache tidalId with
          | some CacheVal.notFound => st
          | some (CacheVal.found tr) =>
            { st with items := st.items ++ [⟨tr, e.ts⟩] }
          | none =>
            let arr := (alookup st.idsToSearch tidalId).getD []
            let st := { st with
              idsToSearch := aset st.idsToSearch tidalId (arr ++ [e.ts]) }
            checkIdsToSearch oracle false st
  | _, _, _ => st

/-- One iteration of the run loop at absolute index i: record the visit,
set currentItem, process the entry, and flush as soon as 20 items have
accumulated. -/
def step (oracle : IdOracle) (u : String) (i : Nat) (e : FullPrivacyItem)
    (st : FRunSt) : FRunSt :=
  let st := { st with cur := i, log := st.log ++ [.visit i] }
  let st := processEntry oracle e st
  if 20 ≤ st.items.length then flush u st else st

/-- The run loop over the remaining entries, carrying the absolute index. -/
def runEntries (oracle : IdOracle) (u : String) :
    Nat → List FullPrivacyItem → FRunSt → FRunSt
  | _, [], st => st
  | i, e :: rest, st => runEntries oracle u (i + 1) rest (step oracle u i e st)

/-- The tail of FullPrivacyImporter.run: a forced checkIdsToSearch, then a
flush of the remaining partial batch. -/
def finish (oracle : IdOracle) (u : String) (st : FRunSt) : FRunSt :=
  let st := checkIdsToSearch oracle true st
  if 0 < st.items.length then flush u st else st

/-- FullPrivacyImporter.run started from a persisted state: init sets
currentItem to the checkpointed cursor and the loop processes elements from
there. -/
def resumeRun (oracle : IdOracle) (u : String)
    (elements : List FullPrivacyItem) (p : PState) : FRunSt :=
  finish oracle u (runEntries oracle u p.checkpoint
    (elements.drop p.checkpoint)
    { cur := p.checkpoint, items := [], cache := [], idsToSearch := [],
      events := p.events, cp := p.checkpoint, log := [], bounds := [p] })

end FullPrivacyImporter

namespace SyncLoop

/-- The dedup-and-collect loop of the live sync (looper.ts loop, lines
64-91): for each fetched item the store is queried with a 30 second window;
a non-duplicate with a primary artist is collected, tagged blacklistedBy
artist when the primary artist is on the user's blacklist; the second
component records the store queries made.  The sync loop performs no
in-batch duplicate scan. -/
def loopInfosStep (store : List Event) (owner : String)
    (blacklist : List String) (acc : List Infos × List DedupQuery)
    (item : TrackItem) : List Infos × List DedupQuery :=
  let date := item.played_at
  let q : DedupQuery := ⟨owner, item.track.id, date, 30⟩
  let dup := getCloseTrackId store owner item.track.id date 30
  if dup.length = 0 then
    match item.track.artistIds with
    | [] => (acc.1, acc.2 ++ [q])
    | primaryArtist :: _ =>
      (acc.1 ++ [{ played_at := date, id := item.track.id,
                   primaryArtistId := primaryArtist,
                   albumId := item.track.albumId,
                   artistIds := item.track.artistIds,
                   durationMs := item.track.duration * 1000,
                   blacklistedBy := if blacklist.contains primaryArtist
                     then some "artist" else none }],
       acc.2 ++ [q])
  else (acc.1, acc.2 ++ [q])

/-- The per-page dedup-and-collect of the live sync loop. -/
def loopInfosDedup (store : List Event) (owner : String)
    (blacklist : List String) (items : List TrackItem) :
    List Infos × List DedupQuery :=
  items.foldl (loopInfosStep store owner blacklist) ([], [])

/-- The infos the sync loop persists for one fetched page. -/
def loopInfos (store : List Event) (owner : String) (blacklist : List String)
    (items : List TrackItem) : List Infos :=
  (loopInfosDedup store owner blacklist items).1

end SyncLoop

namespace RecentlyPlayed

/-- A record stored by storeTrackPlay for recently played tracking. -/
structure PlaybackRecord where
  userId : String
  trackId : String
  playedAt : Int
  source : String
deriving DecidableEq, Repr

/-- An in-memory session entry of the currentSessions map. -/
structure SessionRecord where
  userId : String
  trackId : String
  startedAt : Int
  lastUpdated : Int
deriving DecidableEq, Repr

/-- The state of the recentlyPlayed module: the in-memory session map and
the playback records written to the store. -/
structure SessState where
  sessions : List (String × SessionRecord)
  stored : List PlaybackRecord
deriving DecidableEq, Repr

/-- storeTrackPlay: saves the record unconditionally, with no duplicate
check of any kind. -/
def storeTrackPlay (st : SessState) (r : PlaybackRecord) : SessState :=
  { st with stored := st.stored ++ [r] }

/-- updateCurrentSession: create or overwrite the owner's entry, with
lastUpdated set to the current time. -/
def updateCurrentSession (st : SessState) (userId trackId : String)
    (startedAt now : Int) : SessState :=
  let s : SessionRecord := ⟨userId, trackId, startedAt, now⟩
  { st with sessions := aset st.sessions userId s }

/-- getCurrentSession: look the owner up; an entry whose lastUpdated is more
than one hour before now is deleted lazily and reported absent. -/
def getCurrentSession (st : SessState) (userId : String) (now : Int) :
    SessState × Option SessionRecord :=
  match alookup st.sessions userId with
  | none => (st, none)
  | some s =>
    if s.lastUpdated < now - 60 * 60 * 1000 then
      ({ st with sessions := aremove st.sessions userId }, none)
    else (st, some s)

/-- endCurrentSession: look the session up through getCurrentSession; if
absent it is a no-op; if present, a play strictly longer than 30000 ms
(measured from the optional endedAt, defaulting to now) is stored with
played-at equal to the session start, and the entry is deleted in every
case. -/
def endCurrentSession (st : SessState) (userId : String) (now : Int)
    (endedAt : Option Int) : SessState :=
  let r := getCurrentSession st userId now
  match r.2 with
  | none => r.1
  | some s =>
    let playDuration := (endedAt.getD now) - s.startedAt
    let st' := if 30000 < playDuration then
        storeTrackPlay r.1 ⟨s.userId, s.trackId, s.startedAt, "tidal"⟩
      else r.1
    { st' with sessions := aremove st'.sessions userId }

/-- The interval of the periodic cleanup started by startSessionCleanup,
in milliseconds. -/
def sessionCleanupIntervalMs : Nat := 15 * 60 * 1000

/-- One execution of the periodic sweep of startSessionCleanup: every entry
whose lastUpdated is more than one hour before now is deleted; nothing is
stored. -/
def cleanupSessionsOnce (st : SessState) (now : Int) : SessState :=
  let keep := fun (p : String × SessionRecord) =>
    !(decide (p.2.lastUpdated < now - 60 * 60 * 1000))
  { st with sessions := st.sessions.filter keep }

/-- The operations of the recentlyPlayed session module. -/
inductive SessOp
  | update (userId trackId : String) (startedAt now : Int)
  | get (userId : String) (now : Int)
  | sweep (now : Int)
  | endSession (userId : String) (now : Int) (endedAt : Option Int)
deriving DecidableEq, Repr

/-- Interpreting one session operation on the module state. -/
def sessStep (st : SessState) : SessOp → SessState
  | .update userId trackId startedAt now =>
    updateCurrentSession st userId trackId startedAt now
  | .get userId now => (getCurrentSession st userId now).1
  | .sweep now => cleanupSessionsOnce st now
  | .endSession userId now endedAt => endCurrentSession st userId now endedAt

/-- Running a sequence of session operations from a state. -/
def sessRun (st : SessState) (ops : List SessOp) : SessState :=
  ops.foldl sessStep st

end RecentlyPlayed

/-- Modelled from the spec: uniqBy lives in tools/misc which is not among
the provided sources; per the specification duplicate ids within the same
upsert collapse to one write, so uniqBy keeps the first element for each
key in order. -/
def uniqByAux {α β : Type} [DecidableEq β] (f : α → β) :
    List β → List α → List α
  | _, [] => []
  | seen, x :: xs =>
    if f x ∈ seen then uniqByAux f seen xs
    else x :: uniqByAux f (f x :: seen) xs

/-- Modelled from the spec: uniqBy keeps the first element for each key. -/
def uniqBy {α β : Type} [DecidableEq β] (l : List α) (f : α → β) : List α :=
  uniqByAux f [] l

/-- The distinct elements of a list in first-occurrence order, as a
JavaScript Set built from the list. -/
def dedupFirst {α : Type} [DecidableEq α] (l : List α) : List α :=
  uniqBy l id

namespace DbTools

/-- A stored track record, restricted to the fields the resolver uses: its
id, the id of its album and the ids of its artists. -/
structure DbTrack where
  id : String
  album : String
  artists : List String
deriving DecidableEq, Repr

/-- A stored album record, restricted to its id. -/
structure DbAlbum where
  id : String
deriving DecidableEq, Repr

/-- A stored artist record, restricted to its id. -/
structure DbArtist where
  id : String
deriving DecidableEq, Repr

/-- The metadata store: tracks, albums and artists keyed by external id. -/
structure MetaStore where
  tracks : List DbTrack
  albums : List DbAlbum
  artists : List DbArtist
deriving DecidableEq, Repr

/-- One external metadata fetch. -/
inductive FetchCall
  | trackFetch (id : String)
  | albumFetch (id : String)
  | artistFetch (id : String)
deriving DecidableEq, Repr

/-- The external single-track fetch as a deterministic oracle; a None is a
fetch that failed after retries and is skipped. -/
abbrev TrackOracle := String → Option TidalTrack

/-- The external single-album fetch as a deterministic oracle. -/
abbrev AlbumOracle := String → Option DbAlbum

/-- The external single-artist fetch as a deterministic oracle. -/
abbrev ArtistOracle := String → Option DbArtist

/-- dbTools getTracks: fetch each id individually, skip failures, and map
the external representation to the stored record shape (album and artist
ids from the relationships); every id is one external call. -/
def getTracks (o : TrackOracle) (ids : List String) :
    List DbTrack × List FetchCall :=
  (ids.filterMap (fun id => (o id).map
      (fun t => ⟨t.id, t.albumId, t.artistIds⟩)),
   ids.map .trackFetch)

/-- dbTools getAlbums: fetch each id individually, skipping failures. -/
def getAlbums (o : AlbumOracle) (ids : List String) :
    List DbAlbum × List FetchCall :=
  (ids.filterMap o, ids.map .albumFetch)

/-- dbTools getArtists: fetch each id individually, skipping failures. -/
def getArtists (o : ArtistOracle) (ids : List String) :
    List DbArtist × List FetchCall :=
  (ids.filterMap o, ids.map .artistFetch)

/-- dbTools getTracksAndRelatedAlbumArtists: resolve the tracks, then
derive the distinct artist and album ids they reference. -/
def getTracksAndRelatedAlbumArtists (o : TrackOracle) (ids : List String) :
    (List DbTrack × List String × List String) × List FetchCall :=
  let r := getTracks o ids
  ((r.1, dedupFirst (r.1.flatMap (·.artists)), dedupFirst (r.1.map (·.album))),
   r.2)

/-- dbTools getTracksAlbumsArtists: find the batch's track ids already in
the store; when none is missing return empty record lists without any
external call; otherwise resolve the missing tracks first, derive the
distinct album and artist ids they reference, and fetch only the album and
artist ids still missing from the store.  The second component is the
ordered list of external calls made. -/
def getTracksAlbumsArtists (store : MetaStore) (oT : TrackOracle)
    (oA : AlbumOracle) (oAr : ArtistOracle) (tidalTracks : List TidalTrack) :
    (List DbTrack × List DbAlbum × List DbArtist) × List FetchCall :=
  let ids := tidalTracks.map (·.id)
  let storedTracks := store.tracks.filter (fun t => ids.contains t.id)
  let missingTrackIds := ids.filter
    (fun id => !(storedTracks.any (fun s => s.id == id)))
  if missingTrackIds.isEmpty then (([], [], []), [])
  else
    let r := getTracksAndRelatedAlbumArtists oT missingTrackIds
    let tracks := r.1.1
    let relatedArtists := r.1.2.1
    let relatedAlbums := r.1.2.2
    let storedAlbums := store.albums.filter
      (fun a => relatedAlbums.contains a.id)
    let missingAlbumIds := relatedAlbums.filter
      (fun alb => !(storedAlbums.any (fun s => s.id == alb)))
    let storedArtists := store.artists.filter
      (fun a => relatedArtists.contains a.id)
    let missingArtistIds := relatedArtists.filter
      (fun art => !(storedArtists.any (fun s => s.id == art)))
    let albumsR := if missingAlbumIds.length > 0
      then getAlbums oA missingAlbumIds else ([], [])
    let artistsR := if missingArtistIds.length > 0
      then getArtists oAr missingArtistIds else ([], [])
    ((tracks, albumsR.1, artistsR.1), r.2 ++ albumsR.2 ++ artistsR.2)

/-- dbTools storeTrackAlbumArtist: create the records of each kind after
collapsing duplicate ids with uniqBy. -/
def storeTrackAlbumArtist (store : MetaStore) (tracks : List DbTrack)
    (albums : List DbAlbum) (artists : List DbArtist) : MetaStore :=
  { tracks := store.tracks ++ uniqBy tracks (·.id)
    albums := store.albums ++ uniqBy albums (·.id)
    artists := store.artists ++ uniqBy artists (·.id) }

end DbTools

/-! Helper lemmas shared by the claim theorems. -/

theorem getCloseTrackId_mem_iff (store : List Event) (o t : String) (d : Int)
    (w : Nat) (e : Event) :
    e ∈ getCloseTrackId store o t d w ↔
      e ∈ store ∧ e.owner = o ∧ e.info.id = t ∧
        (e.info.played_at - d).natAbs ≤ w * 1000 := by
  simp [getCloseTrackId, List.mem_filter, and_assoc]

theorem getCloseTrackId_length_pos_iff (store : List Event) (o t : String)
    (d : Int) (w : Nat) :
    0 < (getCloseTrackId store o t d w).length ↔
      ∃ e ∈ store, e.owner = o ∧ e.info.id = t ∧
        (e.info.played_at - d).natAbs ≤ w * 1000 := by
  rw [List.length_pos]
  constructor
  · intro h
    obtain ⟨e, he⟩ := List.exists_mem_of_ne_nil _ h
    exact ⟨e, (getCloseTrackId_mem_iff store o t d w e).mp he⟩
  · rintro ⟨e, he⟩
    exact List.ne_nil_of_mem
      ((getCloseTrackId_mem_iff store o t d w e).mpr he)

/-! Claim C9. -/

/-- C9: the periodic session sweep runs every 15 minutes; one sweep stores
no PlaybackEvent and evicts exactly the entries whose last-update is more
than one hour old; and no session operation other than an explicit end ever
appends to the stored plays, so a silently abandoned session never produces
a stored event. -/
theorem claim9_sweep_evicts_stale_and_only_end_stores :
    RecentlyPlayed.sessionCleanupIntervalMs = 15 * 60 * 1000 ∧
    (∀ (st : RecentlyPlayed.SessState) (now : Int),
      (RecentlyPlayed.cleanupSessionsOnce st now).stored = st.stored) ∧
    (∀ (st : RecentlyPlayed.SessState) (now : Int)
        (p : String × RecentlyPlayed.SessionRecord),
      p ∈ (RecentlyPlayed.cleanupSessionsOnce st now).sessions ↔
        p ∈ st.sessions ∧ ¬(p.2.lastUpdated < now - 60 * 60 * 1000)) ∧
    (∀ (st : RecentlyPlayed.SessState) (op : RecentlyPlayed.SessOp),
      (∀ (userId : String) (now : Int) (endedAt : Option Int),
        op ≠ RecentlyPlayed.SessOp.endSession userId now endedAt) →
      (RecentlyPlayed.sessStep st op).stored = st.stored) := by
  refine ⟨rfl, fun st now => rfl, fun st now p => ?_, fun st op h => ?_⟩
  · simp [RecentlyPlayed.cleanupSessionsOnce, List.mem_filter]
  · cases op with
    | update userId trackId startedAt now => rfl
    | get userId now =>
      show (RecentlyPlayed.getCurrentSession st userId now).1.stored = _
      unfold RecentlyPlayed.getCurrentSession
      rcases alookup st.sessions userId with _ | s
      · rfl
      · dsimp only
        split <;> rfl
    | sweep now => rfl
    | endSession userId now endedAt => exact absurd rfl (h userId now endedAt)

/-- Witness for C9: a sweep on a concrete state with one fresh and one stale
session stores nothing. -/
theorem claim9_witness :
    (RecentlyPlayed.sessStep
      ⟨[("u1", ⟨"u1", "t1", 0, 0⟩), ("u2", ⟨"u2", "t2", 0, 7000000⟩)], []⟩
      (RecentlyPlayed.SessOp.sweep 7200000)).stored = [] := by
  have h := claim9_sweep_evicts_stale_and_only_end_stores.2.2.2
    ⟨[("u1", ⟨"u1", "t1", 0, 0⟩), ("u2", ⟨"u2", "t2", 0, 7000000⟩)], []⟩
    (RecentlyPlayed.SessOp.sweep 7200000)
    (by intro userId now endedAt hEq; cases hEq)
  simpa using h

/-! Claim C8. -/

/-- C8 counterexample: the claim asserts that an existing entry with elapsed
time of at least 30 seconds stores exactly one event.  On the code, an entry
with elapsed time of exactly 30000 ms stores nothing (the comparison is
strict), and a stale entry (last update more than one hour old) with elapsed
time of two hours also stores nothing. -/
theorem claim8_counterexample :
    (alookup ([("u1", (⟨"u1", "t1", 0, 0⟩ : RecentlyPlayed.SessionRecord))])
        "u1" = some ⟨"u1", "t1", 0, 0⟩) ∧
    ((30000 : Int) - 0 ≥ 30 * 1000) ∧
    (RecentlyPlayed.endCurrentSession ⟨[("u1", ⟨"u1", "t1", 0, 0⟩)], []⟩
        "u1" 30000 none).stored = [] ∧
    ((7200000 : Int) - 0 ≥ 30 * 1000) ∧
    (RecentlyPlayed.endCurrentSession ⟨[("u1", ⟨"u1", "t1", 0, 0⟩)], []⟩
        "u1" 7200000 none).stored = [] := by
  decide

/-- C8 as amended: ending a session is a no-op when no entry exists; a stale
entry (last update more than one hour before the current time) is deleted
with nothing stored; a fresh entry whose elapsed time strictly exceeds 30000
ms stores exactly one PlaybackEvent with played-at equal to the session
start time and is deleted; a fresh entry at or under 30000 ms stores nothing
and is deleted. -/
theorem claim8_end_session_characterization :
    ∀ (st : RecentlyPlayed.SessState) (u : String) (now : Int)
      (endedAt : Option Int),
    (alookup st.sessions u = none →
      RecentlyPlayed.endCurrentSession st u now endedAt = st) ∧
    (∀ s : RecentlyPlayed.SessionRecord, alookup st.sessions u = some s →
      s.lastUpdated < now - 60 * 60 * 1000 →
      RecentlyPlayed.endCurrentSession st u now endedAt =
        { st with sessions := aremove st.sessions u }) ∧
    (∀ s : RecentlyPlayed.SessionRecord, alookup st.sessions u = some s →
      ¬(s.lastUpdated < now - 60 * 60 * 1000) →
      30000 < (endedAt.getD now) - s.startedAt →
      RecentlyPlayed.endCurrentSession st u now endedAt =
        ⟨aremove st.sessions u,
         st.stored ++ [⟨s.userId, s.trackId, s.startedAt, "tidal"⟩]⟩) ∧
    (∀ s : RecentlyPlayed.SessionRecord, alookup st.sessions u = some s →
      ¬(s.lastUpdated < now - 60 * 60 * 1000) →
      ¬(30000 < (endedAt.getD now) - s.startedAt) →
      RecentlyPlayed.endCurrentSession st u now endedAt =
        ⟨aremove st.sessions u, st.stored⟩) := by
  intro st u now endedAt
  refine ⟨fun h => ?_, fun s h hstale => ?_, fun s h hfresh hdur => ?_,
    fun s h hfresh hdur => ?_⟩
  · unfold RecentlyPlayed.endCurrentSession RecentlyPlayed.getCurrentSession
    rw [h]
  · unfold RecentlyPlayed.endCurrentSession RecentlyPlayed.getCurrentSession
    rw [h]
    simp only [if_pos hstale]
  · unfold RecentlyPlayed.endCurrentSession RecentlyPlayed.getCurrentSession
    rw [h]
    simp only [if_neg hfresh, if_pos hdur]
    rfl
  · unfold RecentlyPlayed.endCurrentSession RecentlyPlayed.getCurrentSession
    rw [h]
    simp only [if_neg hfresh, if_neg hdur]

/-- Witness for C8: ending a concrete fresh 40 second session stores one
event with played-at equal to the session start. -/
theorem claim8_witness :
    RecentlyPlayed.endCurrentSession ⟨[("u1", ⟨"u1", "t1", 5, 5⟩)], []⟩
        "u1" 40005 none =
      ⟨[], [⟨"u1", "t1", 5, "tidal"⟩]⟩ := by
  have h := (claim8_end_session_characterization
      ⟨[("u1", ⟨"u1", "t1", 5, 5⟩)], []⟩ "u1" 40005 none).2.2.1
    ⟨"u1", "t1", 5, 5⟩ (by decide) (by decide) (by decide)
  simpa using h

theorem priv_step_fst (store : List Event) (owner : String)
    (acc : List Infos × List DedupQuery) (it : TrackItem) :
    (PrivacyImporter.storeItemsStep store owner acc it).1 = acc.1 ∨
      ∃ pa : Infos,
        (PrivacyImporter.storeItemsStep store owner acc it).1 =
          acc.1 ++ [pa] ∧ pa.played_at = it.played_at := by
  simp only [PrivacyImporter.storeItemsStep]
  split
  · exact Or.inl rfl
  · split
    · exact Or.inl rfl
    · exact Or.inr ⟨_, rfl, rfl⟩

theorem priv_step_drop (store : List Event) (owner : String)
    (acc : List Infos × List DedupQuery) (it : TrackItem) (e : Infos)
    (he : e ∈ acc.1) (hc : (e.played_at - it.played_at).natAbs ≤ 60 * 1000) :
    (PrivacyImporter.storeItemsStep store owner acc it).1 = acc.1 := by
  simp only [PrivacyImporter.storeItemsStep]
  rw [if_pos (Or.inr (List.find?_isSome.mpr ⟨e, he, by simpa using hc⟩))]

theorem fullpriv_step_fst (store : List Event) (owner : String)
    (acc : List Infos × List DedupQuery) (it : TrackItem) :
    (FullPrivacyImporter.storeItemsStep store owner acc it).1 = acc.1 ∨
      ∃ pa : Infos,
        (FullPrivacyImporter.storeItemsStep store owner acc it).1 =
          acc.1 ++ [pa] ∧ pa.played_at = it.played_at := by
  simp only [FullPrivacyImporter.storeItemsStep]
  split
  · exact Or.inl rfl
  · split
    · exact Or.inl rfl
    · exact Or.inr ⟨_, rfl, rfl⟩

theorem fullpriv_step_drop (store : List Event) (owner : String)
    (acc : List Infos × List DedupQuery) (it : TrackItem) (e : Infos)
    (he : e ∈ acc.1) (hc : (e.played_at - it.played_at).natAbs ≤ 60 * 1000) :
    (FullPrivacyImporter.storeItemsStep store owner acc it).1 = acc.1 := by
  simp only [FullPrivacyImporter.storeItemsStep]
  rw [if_pos (Or.inr (List.find?_isSome.mpr ⟨e, he, by simpa using hc⟩))]

/-! Claim C2. -/

/-- C2 counterexample: the claim asserts that inserting the same play twice
within the dedup window through any event-creating path, including session
end, yields exactly one stored event.  On the code, ending the same
(owner, track, start time) session twice stores two identical events: the
session-end path performs no duplicate check. -/
theorem claim2_counterexample :
    (RecentlyPlayed.sessRun ⟨[], []⟩
      [RecentlyPlayed.SessOp.update "u1" "t1" 0 0,
       RecentlyPlayed.SessOp.endSession "u1" 40000 (some 40000),
       RecentlyPlayed.SessOp.update "u1" "t1" 0 50000,
       RecentlyPlayed.SessOp.endSession "u1" 90000 (some 40000)]).stored =
      [⟨"u1", "t1", 0, "tidal"⟩, ⟨"u1", "t1", 0, "tidal"⟩] := by
  decide

/-- C2 as amended: the paths that check the store do deduplicate: a batch
item whose owner and track already have a stored event within the 60 second
window is dropped by either importer, two copies of the same item within one
importer batch collapse to at most one info, and the sync loop drops an item
whose owner and track have a stored event within its 30 second window; the
session-end path, by contrast, performs no duplicate check (see the
counterexample). -/
theorem claim2_store_paths_deduplicate :
    (∀ (store : List Event) (owner : String) (tr : TidalTrack) (ts : Int)
        (e : Event), e ∈ store → e.owner = owner → e.info.id = tr.id →
      (e.info.played_at - ts).natAbs ≤ 60 * 1000 →
      PrivacyImporter.buildFinalInfos store owner [⟨tr, ts⟩] = []) ∧
    (∀ (store : List Event) (owner : String) (tr : TidalTrack) (ts : Int)
        (e : Event), e ∈ store → e.owner = owner → e.info.id = tr.id →
      (e.info.played_at - ts).natAbs ≤ 60 * 1000 →
      FullPrivacyImporter.buildFinalInfos store owner [⟨tr, ts⟩] = []) ∧
    (∀ (store : List Event) (owner : String) (it : TrackItem),
      (PrivacyImporter.buildFinalInfos store owner [it, it]).length ≤ 1) ∧
    (∀ (store : List Event) (owner : String) (it : TrackItem),
      (FullPrivacyImporter.buildFinalInfos store owner [it, it]).length ≤ 1) ∧
    (∀ (store : List Event) (owner : String) (blacklist : List String)
        (tr : TidalTrack) (ts : Int) (e : Event),
      e ∈ store → e.owner = owner → e.info.id = tr.id →
      (e.info.played_at - ts).natAbs ≤ 30 * 1000 →
      SyncLoop.loopInfos store owner blacklist [⟨tr, ts⟩] = []) := by
  refine ⟨?_, ?_, ?_, ?_, ?_⟩
  · intro store owner tr ts e he ho hid hw
    have hdup : 0 < (getCloseTrackId store owner tr.id ts 60).length :=
      (getCloseTrackId_length_pos_iff store owner tr.id ts 60).mpr
        ⟨e, he, ho, hid, hw⟩
    simp only [PrivacyImporter.buildFinalInfos,
      PrivacyImporter.storeItemsDedup, List.foldl,
      PrivacyImporter.storeItemsStep]
    rw [if_pos (Or.inl hdup)]
  · intro store owner tr ts e he ho hid hw
    have hdup : 0 < (getCloseTrackId store owner tr.id ts 60).length :=
      (getCloseTrackId_length_pos_iff store owner tr.id ts 60).mpr
        ⟨e, he, ho, hid, hw⟩
    simp only [FullPrivacyImporter.buildFinalInfos,
      FullPrivacyImporter.storeItemsDedup, List.foldl,
      FullPrivacyImporter.storeItemsStep]
    rw [if_pos (Or.inl hdup)]
  · intro store owner it
    simp only [PrivacyImporter.buildFinalInfos,
      PrivacyImporter.storeItemsDedup, List.foldl]
    have hfst := priv_step_fst store owner ([], []) it
    generalize hA : PrivacyImporter.storeItemsStep store owner ([], []) it
      = a1 at hfst ⊢
    rcases hfst with h1 | ⟨pa, h1, hpa⟩
    · rcases priv_step_fst store owner a1 it with h2 | ⟨pb, h2, _⟩ <;>
        simp [h2, h1]
    · have hm : pa ∈ a1.1 := by rw [h1]; simp
      have hc : (pa.played_at - it.played_at).natAbs ≤ 60 * 1000 := by
        rw [hpa]; simp
      rw [priv_step_drop store owner a1 it pa hm hc, h1]
      simp
  · intro store owner it
    simp only [FullPrivacyImporter.buildFinalInfos,
      FullPrivacyImporter.storeItemsDedup, List.foldl]
    have hfst := fullpriv_step_fst store owner ([], []) it
    generalize hA : FullPrivacyImporter.storeItemsStep store owner ([], []) it
      = a1 at hfst ⊢
    rcases hfst with h1 | ⟨pa, h1, hpa⟩
    · rcases fullpriv_step_fst store owner a1 it with h2 | ⟨pb, h2, _⟩ <;>
        simp [h2, h1]
    · have hm : pa ∈ a1.1 := by rw [h1]; simp
      have hc : (pa.played_at - it.played_at).natAbs ≤ 60 * 1000 := by
        rw [hpa]; simp
      rw [fullpriv_step_drop store owner a1 it pa hm hc, h1]
      simp
  · intro store owner blacklist tr ts e he ho hid hw
    have hdup : 0 < (getCloseTrackId store owner tr.id ts 30).length :=
      (getCloseTrackId_length_pos_iff store owner tr.id ts 30).mpr
        ⟨e, he, ho, hid, hw⟩
    simp only [SyncLoop.loopInfos, SyncLoop.loopInfosDedup, List.foldl,
      SyncLoop.loopInfosStep]
    rw [if_neg (by omega)]

/-! Claim C10. -/

theorem uniqByAux_map_props {α β : Type} [DecidableEq β] (f : α → β) :
    ∀ (l : List α) (seen : List β),
      ((uniqByAux f seen l).map f).Nodup ∧
      ∀ b ∈ (uniqByAux f seen l).map f, b ∉ seen := by
  intro l
  induction l with
  | nil => intro seen; simp [uniqByAux]
  | cons x xs ih =>
    intro seen
    by_cases hx : f x ∈ seen
    · simpa [uniqByAux, hx] using ih seen
    · obtain ⟨hnd, hns⟩ := ih (f x :: seen)
      refine ⟨?_, ?_⟩
      · simp only [uniqByAux, hx, if_neg, List.map_cons]
        refine List.Nodup.cons ?_ hnd
        intro hmem
        exact hns (f x) hmem (by simp)
      · intro b hb hbs
        have hmap : List.map f (uniqByAux f seen (x :: xs)) =
            f x :: List.map f (uniqByAux f (f x :: seen) xs) := by
          simp [uniqByAux, hx]
        rw [hmap] at hb
        rcases List.mem_cons.mp hb with hbe | hb2
        · exact hx (hbe ▸ hbs)
        · exact hns b hb2 (by simp [hbs])

theorem uniqByAux_covers {α β : Type} [DecidableEq β] (f : α → β) :
    ∀ (l : List α) (seen : List β) (a : α), a ∈ l →
      f a ∈ seen ∨ ∃ a' ∈ uniqByAux f seen l, f a' = f a := by
  intro l
  induction l with
  | nil => intro seen a ha; cases ha
  | cons x xs ih =>
    intro seen a ha
    rcases List.mem_cons.mp ha with rfl | ha
    · by_cases hx : f a ∈ seen
      · exact Or.inl hx
      · exact Or.inr ⟨a, by simp [uniqByAux, hx], rfl⟩
    · by_cases hx : f x ∈ seen
      · rcases ih seen a ha with h | ⟨a', ha', he⟩
        · exact Or.inl h
        · exact Or.inr ⟨a', by simp [uniqByAux, hx, ha'], he⟩
      · rcases ih (f x :: seen) a ha with h | ⟨a', ha', he⟩
        · rcases List.mem_cons.mp h with he | hs
          · exact Or.inr ⟨x, by simp [uniqByAux, hx], he.symm⟩
          · exact Or.inl hs
        · exact Or.inr ⟨a', by simp [uniqByAux, hx, ha'], he⟩

theorem uniqBy_map_nodup {α β : Type} [DecidableEq β] (l : List α)
    (f : α → β) : ((uniqBy l f).map f).Nodup :=
  (uniqByAux_map_props f l []).1

theorem uniqBy_covers {α β : Type} [DecidableEq β] (l : List α) (f : α → β)
    (a : α) (ha : a ∈ l) : ∃ a' ∈ uniqBy l f, f a' = f a := by
  rcases uniqByAux_covers f l [] a ha with h | h
  · cases h
  · exact h

theorem dedupFirst_nodup {α : Type} [DecidableEq α] (l : List α) :
    (dedupFirst l).Nodup := by
  have h := uniqBy_map_nodup l (id : α → α)
  simpa using h

theorem uniqByAux_subset {α β : Type} [DecidableEq β] (f : α → β) :
    ∀ (l : List α) (seen : List β) (a : α),
      a ∈ uniqByAux f seen l → a ∈ l := by
  intro l
  induction l with
  | nil =>
    intro seen a ha
    simp [uniqByAux] at ha
  | cons x xs ih =>
    intro seen a ha
    by_cases hx : f x ∈ seen
    · simp only [uniqByAux, if_pos hx] at ha
      exact List.mem_cons.mpr (Or.inr (ih seen a ha))
    · simp only [uniqByAux, if_neg hx] at ha
      rcases List.mem_cons.mp ha with rfl | ha2
      · exact List.mem_cons.mpr (Or.inl rfl)
      · exact List.mem_cons.mpr (Or.inr (ih _ a ha2))

theorem dedupFirst_subset {α : Type} [DecidableEq α] (l : List α) (a : α)
    (ha : a ∈ dedupFirst l) : a ∈ l :=
  uniqByAux_subset (id : α → α) l [] a ha

theorem mem_dedupFirst {α : Type} [DecidableEq α] (l : List α) (a : α)
    (ha : a ∈ l) : a ∈ dedupFirst l := by
  rcases uniqBy_covers l (id : α → α) a ha with ⟨b, hb, he⟩
  have he2 : b = a := he
  subst he2
  exact hb

theorem getAlbums_branch_snd (oA : DbTools.AlbumOracle) (l : List String) :
    (if 0 < l.length then DbTools.getAlbums oA l else ([], [])).2 =
      l.map DbTools.FetchCall.albumFetch := by
  split
  · rfl
  · have hl : l = [] := by
      cases l with
      | nil => rfl
      | cons x xs => simp at *
    simp [hl]

theorem getArtists_branch_snd (oAr : DbTools.ArtistOracle) (l : List String) :
    (if 0 < l.length then DbTools.getArtists oAr l else ([], [])).2 =
      l.map DbTools.FetchCall.artistFetch := by
  split
  · rfl
  · have hl : l = [] := by
      cases l with
      | nil => rfl
      | cons x xs => simp at *
    simp [hl]

/-- C10: metadata resolution makes no external call when every track id of
the batch is already stored (returning empty record lists); otherwise the
external calls are the missing track ids first, then album ids, then artist
ids, where the album and artist fetch lists are distinct, consist exactly of
the album and artist ids referenced by the resolved tracks that are still
missing from the store (every fetched id is referenced and unstored, every
referenced unstored id is fetched); and the upsert collapses duplicate ids
within each record kind to a single write per id while still covering every
input id. -/
theorem claim10_metadata_resolution :
    (∀ (store : DbTools.MetaStore) (oT : DbTools.TrackOracle)
        (oA : DbTools.AlbumOracle) (oAr : DbTools.ArtistOracle)
        (tts : List TidalTrack),
      (∀ id ∈ tts.map (fun t => t.id), ∃ t ∈ store.tracks, t.id = id) →
      DbTools.getTracksAlbumsArtists store oT oA oAr tts =
        (([], [], []), [])) ∧
    (∀ (store : DbTools.MetaStore) (oT : DbTools.TrackOracle)
        (oA : DbTools.AlbumOracle) (oAr : DbTools.ArtistOracle)
        (tts : List TidalTrack),
      ∃ (tIds aIds arIds : List String),
        (DbTools.getTracksAlbumsArtists store oT oA oAr tts).2 =
          tIds.map DbTools.FetchCall.trackFetch ++
            aIds.map DbTools.FetchCall.albumFetch ++
            arIds.map DbTools.FetchCall.artistFetch ∧
        (∀ id ∈ tIds, id ∈ tts.map (fun t => t.id) ∧
          ∀ t ∈ store.tracks, t.id ≠ id) ∧
        (∀ id ∈ tts.map (fun t => t.id),
          (∀ t ∈ store.tracks, t.id ≠ id) → id ∈ tIds) ∧
        aIds.Nodup ∧
        (∀ id ∈ aIds,
          id ∈ (DbTools.getTracks oT tIds).1.map (fun t => t.album) ∧
          ∀ a ∈ store.albums, a.id ≠ id) ∧
        (∀ id ∈ (DbTools.getTracks oT tIds).1.map (fun t => t.album),
          (∀ a ∈ store.albums, a.id ≠ id) → id ∈ aIds) ∧
        arIds.Nodup ∧
        (∀ id ∈ arIds,
          id ∈ (DbTools.getTracks oT tIds).1.flatMap (fun t => t.artists) ∧
          ∀ a ∈ store.artists, a.id ≠ id) ∧
        (∀ id ∈ (DbTools.getTracks oT tIds).1.flatMap (fun t => t.artists),
          (∀ a ∈ store.artists, a.id ≠ id) → id ∈ arIds)) ∧
    (∀ (ms : DbTools.MetaStore) (ts : List DbTools.DbTrack)
        (als : List DbTools.DbAlbum) (ars : List DbTools.DbArtist),
      (((DbTools.storeTrackAlbumArtist ms ts als ars).tracks.drop
          ms.tracks.length).map (fun t => t.id)).Nodup ∧
      (∀ t ∈ ts, ∃ t' ∈ (DbTools.storeTrackAlbumArtist ms ts als
          ars).tracks.drop ms.tracks.length, t'.id = t.id) ∧
      (((DbTools.storeTrackAlbumArtist ms ts als ars).albums.drop
          ms.albums.length).map (fun a => a.id)).Nodup ∧
      (∀ a ∈ als, ∃ a' ∈ (DbTools.storeTrackAlbumArtist ms ts als
          ars).albums.drop ms.albums.length, a'.id = a.id) ∧
      (((DbTools.storeTrackAlbumArtist ms ts als ars).artists.drop
          ms.artists.length).map (fun a => a.id)).Nodup ∧
      (∀ a ∈ ars, ∃ a' ∈ (DbTools.storeTrackAlbumArtist ms ts als
          ars).artists.drop ms.artists.length, a'.id = a.id)) := by
  refine ⟨?_, ?_, ?_⟩
  · intro store oT oA oAr tts hall
    have hmiss : (tts.map (fun t => t.id)).filter
        (fun id => !((store.tracks.filter
          (fun t => (tts.map (fun t => t.id)).contains t.id)).any
            (fun s => s.id == id))) = [] := by
      rw [List.filter_eq_nil_iff]
      intro id hid
      obtain ⟨t, ht, hte⟩ := hall id hid
      have hany : ((store.tracks.filter
          (fun t => (tts.map (fun t => t.id)).contains t.id)).any
            (fun s => s.id == id)) = true := by
        rw [List.any_eq_true]
        refine ⟨t, ?_, by simp [hte]⟩
        refine List.mem_filter.mpr ⟨ht, ?_⟩
        rw [hte]
        exact List.elem_iff.mpr hid
      simp only [Bool.not_eq_true']
      rw [hany]
      simp
    simp only [DbTools.getTracksAlbumsArtists, hmiss]
    rfl
  · intro store oT oA oAr tts
    by_cases hmiss : ((tts.map (fun t => t.id)).filter
        (fun id => !((store.tracks.filter
          (fun t => (tts.map (fun t => t.id)).contains t.id)).any
            (fun s => s.id == id)))).isEmpty
    · refine ⟨[], [], [], ?_, by simp, ?_, by simp, by simp, ?_, by simp,
        by simp, ?_⟩
      · simp only [DbTools.getTracksAlbumsArtists, hmiss]
        rfl
      · intro id hid hnone
        exfalso
        rw [List.isEmpty_iff] at hmiss
        have : id ∈ (tts.map (fun t => t.id)).filter
            (fun id => !((store.tracks.filter
              (fun t => (tts.map (fun t => t.id)).contains t.id)).any
                (fun s => s.id == id))) := by
          refine List.mem_filter.mpr ⟨hid, ?_⟩
          simp only [Bool.not_eq_true']
          rw [List.any_eq_false]
          intro s hs
          have hsm := List.mem_filter.mp hs
          simpa using hnone s hsm.1
        rw [hmiss] at this
        cases this
      · intro id hid _
        simp [DbTools.getTracks] at hid
      · intro id hid _
        simp [DbTools.getTracks] at hid
    · refine ⟨((tts.map (fun t => t.id)).filter (fun id => !((store.tracks.filter (fun t => (tts.map (fun t => t.id)).contains t.id)).any (fun s => s.id == id)))),
        ((dedupFirst ((DbTools.getTracks oT ((tts.map (fun t => t.id)).filter (fun id => !((store.tracks.filter (fun t => (tts.map (fun t => t.id)).contains t.id)).any (fun s => s.id == id))))).1.map (fun t => t.album))).filter (fun alb => !((store.albums.filter (fun a => (dedupFirst ((DbTools.getTracks oT ((tts.map (fun t => t.id)).filter (fun id => !((store.tracks.filter (fun t => (tts.map (fun t => t.id)).contains t.id)).any (fun s => s.id == id))))).1.map (fun t => t.album))).contains a.id)).any (fun s => s.id == alb)))),
        ((dedupFirst ((DbTools.getTracks oT ((tts.map (fun t => t.id)).filter (fun id => !((store.tracks.filter (fun t => (tts.map (fun t => t.id)).contains t.id)).any (fun s => s.id == id))))).1.flatMap (fun t => t.artists))).filter (fun art => !((store.artists.filter (fun a => (dedupFirst ((DbTools.getTracks oT ((tts.map (fun t => t.id)).filter (fun id => !((store.tracks.filter (fun t => (tts.map (fun t => t.id)).contains t.id)).any (fun s => s.id == id))))).1.flatMap (fun t => t.artists))).contains a.id)).any (fun s => s.id == art)))), ?_, ?_, ?_, ?_, ?_, ?_, ?_, ?_, ?_⟩
      · simp only [DbTools.getTracksAlbumsArtists,
          DbTools.getTracksAndRelatedAlbumArtists, DbTools.getTracks]
        rw [if_neg hmiss]
        rw [getAlbums_branch_snd, getArtists_branch_snd]
      · intro id hid
        have h2 := List.mem_filter.mp hid
        refine ⟨h2.1, ?_⟩
        intro t ht hte
        have hfalse := h2.2
        rw [Bool.not_eq_true'] at hfalse
        have hnone := List.any_eq_false.mp hfalse t
          (List.mem_filter.mpr ⟨ht, List.elem_iff.mpr (hte ▸ h2.1)⟩)
        simp [hte] at hnone
      · intro id hid hnone
        refine List.mem_filter.mpr ⟨hid, ?_⟩
        rw [Bool.not_eq_true']
        rw [List.any_eq_false]
        intro s hs
        have hsm := (List.mem_filter.mp hs).1
        simpa using hnone s hsm
      · exact List.Nodup.filter _ (dedupFirst_nodup _)
      · intro id hid
        have h2 := List.mem_filter.mp hid
        refine ⟨dedupFirst_subset _ id h2.1, ?_⟩
        intro a ha hae
        have hfalse := h2.2
        rw [Bool.not_eq_true'] at hfalse
        have hnone := List.any_eq_false.mp hfalse a
          (List.mem_filter.mpr ⟨ha, List.elem_iff.mpr (hae ▸ h2.1)⟩)
        simp [hae] at hnone
      · intro id hid hnone
        refine List.mem_filter.mpr ⟨mem_dedupFirst _ id hid, ?_⟩
        rw [Bool.not_eq_true']
        rw [List.any_eq_false]
        intro s hs
        have hsm := (List.mem_filter.mp hs).1
        simpa using hnone s hsm
      · exact List.Nodup.filter _ (dedupFirst_nodup _)
      · intro id hid
        have h2 := List.mem_filter.mp hid
        refine ⟨dedupFirst_subset _ id h2.1, ?_⟩
        intro a ha hae
        have hfalse := h2.2
        rw [Bool.not_eq_true'] at hfalse
        have hnone := List.any_eq_false.mp hfalse a
          (List.mem_filter.mpr ⟨ha, List.elem_iff.mpr (hae ▸ h2.1)⟩)
        simp [hae] at hnone
      · intro id hid hnone
        refine List.mem_filter.mpr ⟨mem_dedupFirst _ id hid, ?_⟩
        rw [Bool.not_eq_true']
        rw [List.any_eq_false]
        intro s hs
        have hsm := (List.mem_filter.mp hs).1
        simpa using hnone s hsm
  · intro ms ts als ars
    have h1 : (DbTools.storeTrackAlbumArtist ms ts als ars).tracks.drop
        ms.tracks.length = uniqBy ts (fun t => t.id) := by
      show (ms.tracks ++ uniqBy ts (fun t => t.id)).drop ms.tracks.length = _
      exact List.drop_left _ _
    have h2 : (DbTools.storeTrackAlbumArtist ms ts als ars).albums.drop
        ms.albums.length = uniqBy als (fun a => a.id) := by
      show (ms.albums ++ uniqBy als (fun a => a.id)).drop ms.albums.length = _
      exact List.drop_left _ _
    have h3 : (DbTools.storeTrackAlbumArtist ms ts als ars).artists.drop
        ms.artists.length = uniqBy ars (fun a => a.id) := by
      show (ms.artists ++ uniqBy ars (fun a => a.id)).drop
        ms.artists.length = _
      exact List.drop_left _ _
    refine ⟨?_, ?_, ?_, ?_, ?_, ?_⟩
    · rw [h1]
      exact uniqBy_map_nodup ts _
    · intro t ht
      rw [h1]
      exact uniqBy_covers ts _ t ht
    · rw [h2]
      exact uniqBy_map_nodup als _
    · intro a ha
      rw [h2]
      exact uniqBy_covers als _ a ha
    · rw [h3]
      exact uniqBy_map_nodup ars _
    · intro a ha
      rw [h3]
      exact uniqBy_covers ars _ a ha

/-- Witness for C10: a batch whose only track is already stored resolves to
empty record lists with no external call. -/
theorem claim10_witness :
    DbTools.getTracksAlbumsArtists ⟨[⟨"T1", "AL", ["AR"]⟩], [], []⟩
      (fun _ => none) (fun _ => none) (fun _ => none)
      [⟨"T1", "x", 100, ["AR"], "AL"⟩] = (([], [], []), []) := by
  exact claim10_metadata_resolution.1 ⟨[⟨"T1", "AL", ["AR"]⟩], [], []⟩
    (fun _ => none) (fun _ => none) (fun _ => none)
    [⟨"T1", "x", 100, ["AR"], "AL"⟩] (by decide)

/-! Claim C3. -/

theorem processSearched_log (m : List (String × List Int)) :
    ∀ (l : List (String × Option TidalTrack))
      (st : FullPrivacyImporter.FRunSt),
      (FullPrivacyImporter.processSearched m l st).log = st.log ∧
      (FullPrivacyImporter.processSearched m l st).idsToSearch =
        st.idsToSearch := by
  intro l
  induction l with
  | nil => intro st; exact ⟨rfl, rfl⟩
  | cons p rest ih =>
    intro st
    obtain ⟨id, tr?⟩ := p
    cases tr? with
    | none => exact ih _
    | some tr =>
      simp only [FullPrivacyImporter.processSearched]
      rcases alookup m tr.id with _ | pas
      · exact ih _
      · exact ih _

theorem checkIds_below_threshold (oracle : FullPrivacyImporter.IdOracle)
    (st : FullPrivacyImporter.FRunSt)
    (h : st.idsToSearch.length < 45) :
    FullPrivacyImporter.checkIdsToSearch oracle false st = st := by
  simp only [FullPrivacyImporter.checkIdsToSearch]
  rw [if_pos ⟨by simpa using h, by trivial⟩]

theorem checkIds_flush (oracle : FullPrivacyImporter.IdOracle) (force : Bool)
    (st : FullPrivacyImporter.FRunSt)
    (h : 45 ≤ st.idsToSearch.length ∨ force = true) :
    (FullPrivacyImporter.checkIdsToSearch oracle force st).idsToSearch = []
      ∧ (st.idsToSearch ≠ [] →
        (FullPrivacyImporter.checkIdsToSearch oracle force st).log =
          st.log ++ [Effect.getTracksCall (st.idsToSearch.map (·.1))]) := by
  simp only [FullPrivacyImporter.checkIdsToSearch]
  rw [if_neg (by
    rintro ⟨hlt, hforce⟩
    rcases h with h | h
    · simp only [List.length_map] at hlt
      omega
    · rw [h] at hforce
      cases hforce)]
  constructor
  · rfl
  · intro hne
    have hids : (st.idsToSearch.map (·.1)).isEmpty = false := by
      cases hm : st.idsToSearch with
      | nil => exact absurd hm hne
      | cons x xs => simp [hm]
    rw [hids]
    simp only [Bool.false_eq_true, if_neg]
    have hlog := (processSearched_log st.idsToSearch
      (st.idsToSearch.map (fun id => (id.1, oracle id.1)))
      { st with log := st.log ++
          [Effect.getTracksCall (st.idsToSearch.map (·.1))] }).1
    simp only [List.map_map] at hlog ⊢
    exact hlog

theorem priv_step_items_lt (oracle : PrivacyImporter.SearchOracle)
    (u : String) (i : Nat) (e : PrivacyImporter.PrivacyItem)
    (st : PrivacyImporter.RunSt) :
    (PrivacyImporter.step oracle u i e st).items.length < 20 := by
  simp only [PrivacyImporter.step]
  split
  · simp [PrivacyImporter.flush]
  · omega

theorem fullpriv_step_items_lt (oracle : FullPrivacyImporter.IdOracle)
    (u : String) (i : Nat) (e : FullPrivacyImporter.FullPrivacyItem)
    (st : FullPrivacyImporter.FRunSt) :
    (FullPrivacyImporter.step oracle u i e st).items.length < 20 := by
  simp only [FullPrivacyImporter.step]
  split
  · simp [FullPrivacyImporter.flush]
  · omega

theorem fullpriv_processEntry_queue_lt
    (oracle : FullPrivacyImporter.IdOracle)
    (e : FullPrivacyImporter.FullPrivacyItem)
    (st : FullPrivacyImporter.FRunSt)
    (h : st.idsToSearch.length < 45) :
    (FullPrivacyImporter.processEntry oracle e st).idsToSearch.length
      < 45 := by
  simp only [FullPrivacyImporter.processEntry]
  rcases e.tidal_track_uri with _ | uri
  · exact h
  rcases e.master_metadata_track_name with _ | n1
  · exact h
  rcases e.master_metadata_album_artist_name with _ | n2
  · exact h
  simp only
  split
  · exact h
  rcases FullPrivacyImporter.idFromTidalURI uri with _ | tid
  · exact h
  simp only
  split
  · exact h
  rcases alookup st.cache tid with _ | v
  · simp only
    set st' : FullPrivacyImporter.FRunSt :=
      { st with
        log := st.log ++ [Effect.cacheLookupId tid]
        idsToSearch := aset
          ({ st with log := st.log ++ [Effect.cacheLookupId tid]
             : FullPrivacyImporter.FRunSt }).idsToSearch tid
          ((alookup ({ st with log := st.log ++ [Effect.cacheLookupId tid]
             : FullPrivacyImporter.FRunSt }).idsToSearch tid).getD []
            ++ [e.ts]) } with hst'
    by_cases hq : st'.idsToSearch.length < 45
    · rw [checkIds_below_threshold oracle st' hq]
      exact hq
    · rw [(checkIds_flush oracle false st' (Or.inl (not_lt.mp hq))).1]
      simp
  · rcases v with _ | tr
    · exact h
    · exact h

theorem fullpriv_step_queue_lt (oracle : FullPrivacyImporter.IdOracle)
    (u : String) (i : Nat) (e : FullPrivacyImporter.FullPrivacyItem)
    (st : FullPrivacyImporter.FRunSt)
    (h : st.idsToSearch.length < 45) :
    (FullPrivacyImporter.step oracle u i e st).idsToSearch.length < 45 := by
  simp only [FullPrivacyImporter.step]
  split
  · show (FullPrivacyImporter.flush u _).idsToSearch.length < 45
    exact fullpriv_processEntry_queue_lt oracle e _ h
  · exact fullpriv_processEntry_queue_lt oracle e _ h

theorem aset_length_le {α β : Type} [BEq α] (l : List (α × β)) (k : α)
    (v : β) : (aset l k v).length ≤ l.length + 1 := by
  simp only [aset]
  split
  · simp
  · simp

theorem trySearching_no_meta (oracle : PrivacyImporter.SearchOracle)
    (a t : String) (ids : List String) :
    Effect.metaResolve ids ∉ (PrivacyImporter.trySearching oracle a t).2 := by
  simp only [PrivacyImporter.trySearching]
  rcases oracle (removeDiacritics t) (removeDiacritics a) with _ | tr
  · rcases oracle (removeDiacritics (beforeParenthesis t))
      (removeDiacritics (beforeParenthesis a)) with _ | tr2 <;> simp
  · simp

theorem priv_processEntry_shape (oracle : PrivacyImporter.SearchOracle)
    (e : PrivacyImporter.PrivacyItem) (st : PrivacyImporter.RunSt) :
    ∃ lg : List Effect,
      (PrivacyImporter.processEntry oracle e st).log = st.log ++ lg ∧
      (∀ ids, Effect.metaResolve ids ∉ lg) ∧
      (PrivacyImporter.processEntry oracle e st).items.length ≤
        st.items.length + 1 := by
  simp only [PrivacyImporter.processEntry]
  split
  · exact ⟨[], by simp, by simp, by simp⟩
  · rcases hit : alookup st.cache (e.trackName, e.artistName) with _ | v
    · refine ⟨Effect.cacheLookupName e.trackName e.artistName ::
        (PrivacyImporter.trySearching oracle e.artistName e.trackName).2,
        rfl, ?_, ?_⟩
      · intro ids hmem
        rcases List.mem_cons.mp hmem with habs | hmem2
        · cases habs
        · exact trySearching_no_meta oracle e.artistName e.trackName ids hmem2
      · rcases (PrivacyImporter.trySearching oracle e.artistName
          e.trackName).1 with _ | tr <;> simp
    · refine ⟨[Effect.cacheLookupName e.trackName e.artistName], rfl, ?_, ?_⟩
      · intro ids hmem
        rcases List.mem_cons.mp hmem with habs | hmem2
        · cases habs
        · cases hmem2
      · rcases v with _ | tr <;> simp

theorem priv_flush_log (u : String) (st : PrivacyImporter.RunSt) :
    (PrivacyImporter.flush u st).log = st.log ++
      [Effect.metaResolve (st.items.map (fun it => it.track.id)),
       Effect.setCursor (st.cur + 1),
       Effect.addEvents (PrivacyImporter.buildFinalInfos st.events u
         st.items)] := rfl

theorem priv_step_meta (oracle : PrivacyImporter.SearchOracle) (u : String)
    (i : Nat) (e : PrivacyImporter.PrivacyItem) (st : PrivacyImporter.RunSt)
    (hitems : st.items.length < 20)
    (hlog : ∀ ids, Effect.metaResolve ids ∈ st.log → ids.length ≤ 20) :
    ∀ ids, Effect.metaResolve ids ∈
      (PrivacyImporter.step oracle u i e st).log → ids.length ≤ 20 := by
  obtain ⟨lg, hl, hnometa, hlen⟩ := priv_processEntry_shape oracle e
    { st with cur := i, log := st.log ++ [Effect.visit i] }
  have hlen' : (PrivacyImporter.processEntry oracle e
      { st with cur := i, log := st.log ++ [Effect.visit i] }).items.length ≤
      st.items.length + 1 := hlen
  simp only [PrivacyImporter.step]
  split
  · intro ids hmem
    rw [priv_flush_log, hl] at hmem
    rcases List.mem_append.mp hmem with h1 | h2
    · rcases List.mem_append.mp h1 with h3 | h4
      · rcases List.mem_append.mp h3 with h5 | h6
        · exact hlog ids h5
        · simp at h6
      · exact absurd h4 (hnometa ids)
    · simp only [List.mem_cons, List.not_mem_nil, or_false] at h2
      rcases h2 with he | he | he
      · cases he
        rw [List.length_map]
        omega
      · cases he
      · cases he
  · intro ids hmem
    rw [hl] at hmem
    rcases List.mem_append.mp hmem with h1 | h2
    · rcases List.mem_append.mp h1 with h3 | h4
      · exact hlog ids h3
      · simp at h4
    · exact absurd h2 (hnometa ids)

theorem priv_run_meta_bound (oracle : PrivacyImporter.SearchOracle)
    (u : String) :
    ∀ (l : List PrivacyImporter.PrivacyItem) (i : Nat)
      (st : PrivacyImporter.RunSt),
      st.items.length < 20 →
      (∀ ids, Effect.metaResolve ids ∈ st.log → ids.length ≤ 20) →
      ∀ ids, Effect.metaResolve ids ∈
        (PrivacyImporter.finish u
          (PrivacyImporter.runEntries oracle u i l st)).log →
        ids.length ≤ 20 := by
  intro l
  induction l with
  | nil =>
    intro i st hitems hlog ids hmem
    simp only [PrivacyImporter.runEntries, PrivacyImporter.finish] at hmem
    by_cases hpos : 0 < st.items.length
    · rw [if_pos hpos] at hmem
      simp only [PrivacyImporter.flush, List.mem_append,
        List.mem_cons] at hmem
      rcases hmem with hmem | hmem
      · exact hlog ids hmem
      · rcases hmem with hmem | hmem
        · cases hmem with
          | refl =>
            rw [List.length_map]
            omega
        · rcases hmem with hmem | hmem
          · cases hmem
          · rcases hmem with hmem | hmem
            · cases hmem
            · cases hmem
    · rw [if_neg hpos] at hmem
      exact hlog ids hmem
  | cons e rest ih =>
    intro i st hitems hlog ids hmem
    exact ih (i + 1) (PrivacyImporter.step oracle u i e st)
      (priv_step_items_lt oracle u i e st)
      (priv_step_meta oracle u i e st hitems hlog) ids hmem

theorem fullpriv_flush_log (u : String)
    (st : FullPrivacyImporter.FRunSt) :
    (FullPrivacyImporter.flush u st).log = st.log ++
      [Effect.metaResolve (st.items.map (fun it => it.track.id)),
       Effect.setCursor (st.cur + 1),
       Effect.addEvents (FullPrivacyImporter.buildFinalInfos st.events u
         st.items)] := rfl

theorem fullpriv_processEntry_calls (oracle : FullPrivacyImporter.IdOracle)
    (e : FullPrivacyImporter.FullPrivacyItem)
    (st : FullPrivacyImporter.FRunSt)
    (hq : st.idsToSearch.length < 45)
    (hlog : ∀ ids, Effect.getTracksCall ids ∈ st.log → ids.length ≤ 45) :
    ∀ ids, Effect.getTracksCall ids ∈
      (FullPrivacyImporter.processEntry oracle e st).log →
      ids.length ≤ 45 := by
  simp only [FullPrivacyImporter.processEntry]
  rcases e.tidal_track_uri with _ | uri
  · exact hlog
  rcases e.master_metadata_track_name with _ | n1
  · exact hlog
  rcases e.master_metadata_album_artist_name with _ | n2
  · exact hlog
  simp only
  split
  · exact hlog
  rcases FullPrivacyImporter.idFromTidalURI uri with _ | tid
  · exact hlog
  simp only
  split
  · exact hlog
  have hlog' : ∀ ids, Effect.getTracksCall ids ∈
      st.log ++ [Effect.cacheLookupId tid] → ids.length ≤ 45 := by
    intro ids hmem
    rcases List.mem_append.mp hmem with h1 | h2
    · exact hlog ids h1
    · simp at h2
  rcases alookup st.cache tid with _ | v
  · simp only
    set st' : FullPrivacyImporter.FRunSt :=
      { st with
        log := st.log ++ [Effect.cacheLookupId tid]
        idsToSearch := aset
          ({ st with log := st.log ++ [Effect.cacheLookupId tid]
             : FullPrivacyImporter.FRunSt }).idsToSearch tid
          ((alookup ({ st with log := st.log ++ [Effect.cacheLookupId tid]
             : FullPrivacyImporter.FRunSt }).idsToSearch tid).getD []
            ++ [e.ts]) } with hst'
    have hqb : st'.idsToSearch.length ≤ st.idsToSearch.length + 1 := by
      rw [hst']
      exact aset_length_le st.idsToSearch tid _
    by_cases hq' : st'.idsToSearch.length < 45
    · rw [checkIds_below_threshold oracle st' hq']
      exact hlog'
    · have h45 : 45 ≤ st'.idsToSearch.length := not_lt.mp hq'
      have hne : st'.idsToSearch ≠ [] := by
        intro habs
        rw [habs] at h45
        simp at h45
      have hcl := (checkIds_flush oracle false st' (Or.inl h45)).2 hne
      intro ids hmem
      rw [hcl] at hmem
      rcases List.mem_append.mp hmem with h1 | h2
      · exact hlog' ids h1
      · simp only [List.mem_cons, List.not_mem_nil, or_false] at h2
        cases h2
        rw [List.length_map]
        have hc : st'.idsToSearch.length ≤ 45 := by omega
        exact hc
  · rcases v with _ | tr
    · exact hlog'
    · exact hlog'

theorem fullpriv_step_calls (oracle : FullPrivacyImporter.IdOracle)
    (u : String) (i : Nat) (e : FullPrivacyImporter.FullPrivacyItem)
    (st : FullPrivacyImporter.FRunSt)
    (hq : st.idsToSearch.length < 45)
    (hlog : ∀ ids, Effect.getTracksCall ids ∈ st.log → ids.length ≤ 45) :
    ∀ ids, Effect.getTracksCall ids ∈
      (FullPrivacyImporter.step oracle u i e st).log → ids.length ≤ 45 := by
  have hlog1 : ∀ ids, Effect.getTracksCall ids ∈
      ({ st with cur := i, log := st.log ++ [Effect.visit i]
        : FullPrivacyImporter.FRunSt }).log → ids.length ≤ 45 := by
    intro ids hmem
    rcases List.mem_append.mp hmem with h1 | h2
    · exact hlog ids h1
    · simp at h2
  have hpe := fullpriv_processEntry_calls oracle e
    { st with cur := i, log := st.log ++ [Effect.visit i] } hq hlog1
  simp only [FullPrivacyImporter.step]
  split
  · intro ids hmem
    rw [fullpriv_flush_log] at hmem
    rcases List.mem_append.mp hmem with h1 | h2
    · exact hpe ids h1
    · simp at h2
  · exact hpe

theorem fullpriv_checkIds_empty (oracle : FullPrivacyImporter.IdOracle)
    (force : Bool) (st : FullPrivacyImporter.FRunSt)
    (h : st.idsToSearch = []) :
    FullPrivacyImporter.checkIdsToSearch oracle force st = st := by
  obtain ⟨cur, items, cache, ids, events, cp, log, bounds⟩ := st
  simp only at h
  subst h
  simp only [FullPrivacyImporter.checkIdsToSearch]
  cases force <;> simp [FullPrivacyImporter.processSearched]

theorem fullpriv_run_call_bound (oracle : FullPrivacyImporter.IdOracle)
    (u : String) :
    ∀ (l : List FullPrivacyImporter.FullPrivacyItem) (i : Nat)
      (st : FullPrivacyImporter.FRunSt),
      st.idsToSearch.length < 45 →
      (∀ ids, Effect.getTracksCall ids ∈ st.log → ids.length ≤ 45) →
      ∀ ids, Effect.getTracksCall ids ∈
        (FullPrivacyImporter.finish oracle u
          (FullPrivacyImporter.runEntries oracle u i l st)).log →
        ids.length ≤ 45 := by
  intro l
  induction l with
  | nil =>
    intro i st hq hlog ids hmem
    simp only [FullPrivacyImporter.runEntries,
      FullPrivacyImporter.finish] at hmem
    have hafter : ∀ ids, Effect.getTracksCall ids ∈
        (FullPrivacyImporter.checkIdsToSearch oracle true st).log →
        ids.length ≤ 45 := by
      by_cases hne : st.idsToSearch = []
      · rw [fullpriv_checkIds_empty oracle true st hne]
        exact hlog
      · intro ids2 hmem2
        rw [(checkIds_flush oracle true st (Or.inr rfl)).2 hne] at hmem2
        rcases List.mem_append.mp hmem2 with h1 | h2
        · exact hlog ids2 h1
        · simp only [List.mem_cons, List.not_mem_nil, or_false] at h2
          cases h2
          rw [List.length_map]
          omega
    by_cases hpos : 0 <
        (FullPrivacyImporter.checkIdsToSearch oracle true st).items.length
    · rw [if_pos hpos] at hmem
      rw [fullpriv_flush_log] at hmem
      rcases List.mem_append.mp hmem with h1 | h2
      · exact hafter ids h1
      · simp at h2
    · rw [if_neg hpos] at hmem
      exact hafter ids hmem
  | cons e rest ih =>
    intro i st hq hlog ids hmem
    exact ih (i + 1) (FullPrivacyImporter.step oracle u i e st)
      (fullpriv_step_queue_lt oracle u i e st hq)
      (fullpriv_step_calls oracle u i e st hq hlog) ids hmem

theorem fullpriv_finish_queue_empty (oracle : FullPrivacyImporter.IdOracle)
    (u : String) (st : FullPrivacyImporter.FRunSt) :
    (FullPrivacyImporter.finish oracle u st).idsToSearch = [] := by
  simp only [FullPrivacyImporter.finish]
  have hq := (checkIds_flush oracle true st (Or.inr rfl)).1
  split
  · show (FullPrivacyImporter.flush u _).idsToSearch = []
    exact hq
  · exact hq

/-- C3 counterexample: the claim attributes the 45-lookup accumulation to
the fuzzy strategy.  On the code, the fuzzy importer resolves every cache
miss immediately with its own search call: a two-entry run makes two
separate search calls, and the first one happens before the second entry is
even visited, with no 45-lookup queue involved. -/
theorem claim3_counterexample :
    (((PrivacyImporter.resumeRun
        (fun t _ => some ⟨t, t, 100, ["ar"], "al"⟩) "u"
        [⟨0, "A0", "S0", 40000⟩, ⟨200000, "A1", "S1", 40000⟩]
        ⟨[], 0⟩).log.filter Effect.isSearchCall).length = 2) ∧
    ((PrivacyImporter.resumeRun
        (fun t _ => some ⟨t, t, 100, ["ar"], "al"⟩) "u"
        [⟨0, "A0", "S0", 40000⟩, ⟨200000, "A1", "S1", 40000⟩]
        ⟨[], 0⟩).log.getD 2 (Effect.visit 99) =
      Effect.searchCall "S0" "A0") ∧
    ((PrivacyImporter.resumeRun
        (fun t _ => some ⟨t, t, 100, ["ar"], "al"⟩) "u"
        [⟨0, "A0", "S0", 40000⟩, ⟨200000, "A1", "S1", 40000⟩]
        ⟨[], 0⟩).log.getD 3 (Effect.visit 99) = Effect.visit 1) := by
  decide

/-- C3 as amended: for both strategies a store flush occurs within the same
loop iteration in which the batch reaches 20 records, so the buffer is
always below 20 at each loop head, and in the fuzzy strategy every persisted
batch has at most 20 items; the 45-lookup queue belongs to the exact
(URI-based) strategy: its queue stays below 45 at each loop head,
checkIdsToSearch is a no-op below 45 distinct queued lookups without force,
a flush resolves the entire queue with a single batched call and clears it,
every batched call of a run carries at most 45 ids, and end-of-input always
leaves the queue flushed. -/
theorem claim3_flush_thresholds :
    (∀ (oracle : PrivacyImporter.SearchOracle) (u : String)
        (elements : List PrivacyImporter.PrivacyItem) (p : PState)
        (ids : List String),
      Effect.metaResolve ids ∈
        (PrivacyImporter.resumeRun oracle u elements p).log →
      ids.length ≤ 20) ∧
    (∀ (oracle : PrivacyImporter.SearchOracle) (u : String) (i : Nat)
        (e : PrivacyImporter.PrivacyItem) (st : PrivacyImporter.RunSt),
      (PrivacyImporter.step oracle u i e st).items.length < 20) ∧
    (∀ (oracle : FullPrivacyImporter.IdOracle) (u : String) (i : Nat)
        (e : FullPrivacyImporter.FullPrivacyItem)
        (st : FullPrivacyImporter.FRunSt),
      (FullPrivacyImporter.step oracle u i e st).items.length < 20) ∧
    (∀ (oracle : FullPrivacyImporter.IdOracle) (u : String) (i : Nat)
        (e : FullPrivacyImporter.FullPrivacyItem)
        (st : FullPrivacyImporter.FRunSt),
      st.idsToSearch.length < 45 →
      (FullPrivacyImporter.step oracle u i e st).idsToSearch.length < 45) ∧
    (∀ (oracle : FullPrivacyImporter.IdOracle)
        (st : FullPrivacyImporter.FRunSt),
      st.idsToSearch.length < 45 →
      FullPrivacyImporter.checkIdsToSearch oracle false st = st) ∧
    (∀ (oracle : FullPrivacyImporter.IdOracle) (force : Bool)
        (st : FullPrivacyImporter.FRunSt),
      45 ≤ st.idsToSearch.length ∨ force = true →
      (FullPrivacyImporter.checkIdsToSearch oracle force
        st).idsToSearch = [] ∧
      (st.idsToSearch ≠ [] →
        (FullPrivacyImporter.checkIdsToSearch oracle force st).log =
          st.log ++
            [Effect.getTracksCall (st.idsToSearch.map (·.1))])) ∧
    (∀ (oracle : FullPrivacyImporter.IdOracle) (u : String)
        (elements : List FullPrivacyImporter.FullPrivacyItem) (p : PState)
        (ids : List String),
      Effect.getTracksCall ids ∈
        (FullPrivacyImporter.resumeRun oracle u elements p).log →
      ids.length ≤ 45) ∧
    (∀ (oracle : FullPrivacyImporter.IdOracle) (u : String)
        (elements : List FullPrivacyImporter.FullPrivacyItem) (p : PState),
      (FullPrivacyImporter.resumeRun oracle u elements
        p).idsToSearch = []) := by
  refine ⟨?_, priv_step_items_lt, fullpriv_step_items_lt,
    fullpriv_step_queue_lt, checkIds_below_threshold, checkIds_flush,
    ?_, ?_⟩
  · intro oracle u elements p ids hmem
    exact priv_run_meta_bound oracle u (elements.drop p.checkpoint)
      p.checkpoint _ (by simp) (by simp) ids hmem
  · intro oracle u elements p ids hmem
    exact fullpriv_run_call_bound oracle u (elements.drop p.checkpoint)
      p.checkpoint _ (by simp) (by simp) ids hmem
  · intro oracle u elements p
    exact fullpriv_finish_queue_empty oracle u _

/-- Witness for C3: a concrete one-lookup queue is left untouched by
checkIdsToSearch without force. -/
theorem claim3_witness :
    FullPrivacyImporter.checkIdsToSearch (fun _ => none) false
      ⟨0, [], [], [("Q", [5])], [], 0, [], []⟩ =
      ⟨0, [], [], [("Q", [5])], [], 0, [], []⟩ := by
  exact claim3_flush_thresholds.2.2.2.2.1 (fun _ => none)
    ⟨0, [], [], [("Q", [5])], [], 0, [], []⟩ (by decide)

/-! Claim C1. -/

/-- A cache is consistent with the search oracle when every entry holds the
result trySearching would produce for its key, which is an invariant of
the import run since only trySearching results are ever cached. -/
def CacheOk (oracle : PrivacyImporter.SearchOracle)
    (c : List ((String × String) × CacheVal)) : Prop :=
  ∀ k v, alookup c k = some v →
    v = (PrivacyImporter.trySearching oracle k.2 k.1).1

theorem cacheOk_nil (oracle : PrivacyImporter.SearchOracle) :
    CacheOk oracle [] := by
  intro k v hkv
  simp [alookup] at hkv

theorem cacheOk_insert (oracle : PrivacyImporter.SearchOracle)
    (c : List ((String × String) × CacheVal)) (hc : CacheOk oracle c)
    (tn an : String) :
    CacheOk oracle (c ++ [((tn, an),
      (PrivacyImporter.trySearching oracle an tn).1)]) := by
  intro k v hkv
  simp only [alookup, List.find?_append] at hkv
  rcases hfc : c.find? (fun p => p.1 == k) with _ | p'
  · rw [hfc] at hkv
    simp only [List.find?] at hkv
    by_cases hbk : (((tn, an) : String × String) == k) = true
    · have hk : ((tn, an) : String × String) = k := eq_of_beq hbk
      rw [hbk] at hkv
      simp at hkv
      subst hk
      exact hkv.symm
    · rw [Bool.not_eq_true] at hbk
      rw [hbk] at hkv
      simp at hkv
  · rw [hfc] at hkv
    simp at hkv
    apply hc k v
    rw [alookup, hfc]
    simp [hkv]

theorem priv_processEntry_frame (oracle : PrivacyImporter.SearchOracle)
    (e : PrivacyImporter.PrivacyItem) (st : PrivacyImporter.RunSt) :
    (PrivacyImporter.processEntry oracle e st).events = st.events ∧
    (PrivacyImporter.processEntry oracle e st).cur = st.cur ∧
    (PrivacyImporter.processEntry oracle e st).cp = st.cp ∧
    (PrivacyImporter.processEntry oracle e st).bounds = st.bounds := by
  simp only [PrivacyImporter.processEntry]
  split
  · exact ⟨rfl, rfl, rfl, rfl⟩
  · rcases hit : alookup st.cache (e.trackName, e.artistName) with _ | v
    · exact ⟨rfl, rfl, rfl, rfl⟩
    · exact ⟨rfl, rfl, rfl, rfl⟩

/-- The batch items an entry contributes, as determined by the oracle alone:
nothing for a short play or an unresolvable name pair, one item for a
resolvable one.  On a consistent cache the loop body contributes exactly
this, whether it hits the cache or searches. -/
def privDelta (oracle : PrivacyImporter.SearchOracle)
    (e : PrivacyImporter.PrivacyItem) : List TrackItem :=
  if e.msPlayed < 30 * 1000 then []
  else
    match (PrivacyImporter.trySearching oracle e.artistName e.trackName).1
      with
    | .found tr => [⟨tr, e.endTime⟩]
    | .notFound => []

theorem priv_processEntry_items (oracle : PrivacyImporter.SearchOracle)
    (e : PrivacyImporter.PrivacyItem) (st : PrivacyImporter.RunSt)
    (hc : CacheOk oracle st.cache) :
    (PrivacyImporter.processEntry oracle e st).items =
      st.items ++ privDelta oracle e := by
  simp only [PrivacyImporter.processEntry, privDelta]
  split
  · simp
  · rcases hit : alookup st.cache (e.trackName, e.artistName) with _ | v
    · rfl
    · have hv := hc (e.trackName, e.artistName) v hit
      rw [hv]

theorem priv_processEntry_cacheOk (oracle : PrivacyImporter.SearchOracle)
    (e : PrivacyImporter.PrivacyItem) (st : PrivacyImporter.RunSt)
    (hc : CacheOk oracle st.cache) :
    CacheOk oracle (PrivacyImporter.processEntry oracle e st).cache := by
  simp only [PrivacyImporter.processEntry]
  split
  · exact hc
  · rcases hit : alookup st.cache (e.trackName, e.artistName) with _ | v
    · exact cacheOk_insert oracle st.cache hc e.trackName e.artistName
    · exact hc

/-- Two run states that agree on the batch and the stored events and whose
caches are both oracle-consistent: the relation a resumed run (fresh cache)
bears to the interrupted one, preserved by every loop step. -/
def RRel (oracle : PrivacyImporter.SearchOracle)
    (s t : PrivacyImporter.RunSt) : Prop :=
  s.items = t.items ∧ s.events = t.events ∧
    CacheOk oracle s.cache ∧ CacheOk oracle t.cache

theorem priv_step_cur (oracle : PrivacyImporter.SearchOracle) (u : String)
    (i : Nat) (e : PrivacyImporter.PrivacyItem)
    (st : PrivacyImporter.RunSt) :
    (PrivacyImporter.step oracle u i e st).cur = i := by
  simp only [PrivacyImporter.step]
  split
  · show (PrivacyImporter.flush u _).cur = i
    show (PrivacyImporter.processEntry oracle e _).cur = i
    exact (priv_processEntry_frame oracle e _).2.1
  · exact (priv_processEntry_frame oracle e _).2.1

theorem priv_step_RRel (oracle : PrivacyImporter.SearchOracle) (u : String)
    (i : Nat) (e : PrivacyImporter.PrivacyItem)
    (s t : PrivacyImporter.RunSt) (h : RRel oracle s t) :
    RRel oracle (PrivacyImporter.step oracle u i e s)
      (PrivacyImporter.step oracle u i e t) := by
  obtain ⟨hit, hev, hcs, hct⟩ := h
  have hs1 : CacheOk oracle
      ({ s with cur := i, log := s.log ++ [Effect.visit i]
        : PrivacyImporter.RunSt }).cache := hcs
  have ht1 : CacheOk oracle
      ({ t with cur := i, log := t.log ++ [Effect.visit i]
        : PrivacyImporter.RunSt }).cache := hct
  have hsi := priv_processEntry_items oracle e
    { s with cur := i, log := s.log ++ [Effect.visit i] } hs1
  have hti := priv_processEntry_items oracle e
    { t with cur := i, log := t.log ++ [Effect.visit i] } ht1
  have hse := (priv_processEntry_frame oracle e
    { s with cur := i, log := s.log ++ [Effect.visit i] }).1
  have hte := (priv_processEntry_frame oracle e
    { t with cur := i, log := t.log ++ [Effect.visit i] }).1
  have hsc := priv_processEntry_cacheOk oracle e
    { s with cur := i, log := s.log ++ [Effect.visit i] } hs1
  have htc := priv_processEntry_cacheOk oracle e
    { t with cur := i, log := t.log ++ [Effect.visit i] } ht1
  have hieq : (PrivacyImporter.processEntry oracle e
      { s with cur := i, log := s.log ++ [Effect.visit i] }).items =
      (PrivacyImporter.processEntry oracle e
        { t with cur := i, log := t.log ++ [Effect.visit i] }).items := by
    rw [hsi, hti]
    show s.items ++ _ = t.items ++ _
    rw [hit]
  have heeq : (PrivacyImporter.processEntry oracle e
      { s with cur := i, log := s.log ++ [Effect.visit i] }).events =
      (PrivacyImporter.processEntry oracle e
        { t with cur := i, log := t.log ++ [Effect.visit i] }).events := by
    rw [hse, hte]
    exact hev
  simp only [PrivacyImporter.step]
  by_cases hcond : 20 ≤ (PrivacyImporter.processEntry oracle e
      { s with cur := i, log := s.log ++ [Effect.visit i] }).items.length
  · rw [if_pos hcond, if_pos (by rw [← hieq]; exact hcond)]
    refine ⟨rfl, ?_, hsc, htc⟩
    show _ ++ (PrivacyImporter.buildFinalInfos _ u _).map _ =
      _ ++ (PrivacyImporter.buildFinalInfos _ u _).map _
    rw [hieq, heeq]
  · rw [if_neg hcond, if_neg (by rw [← hieq]; exact hcond)]
    exact ⟨hieq, heeq, hsc, htc⟩

theorem priv_runEntries_RRel (oracle : PrivacyImporter.SearchOracle)
    (u : String) :
    ∀ (l : List PrivacyImporter.PrivacyItem) (i : Nat)
      (s t : PrivacyImporter.RunSt), RRel oracle s t →
      RRel oracle (PrivacyImporter.runEntries oracle u i l s)
        (PrivacyImporter.runEntries oracle u i l t) := by
  intro l
  induction l with
  | nil => intro i s t h; exact h
  | cons e rest ih =>
    intro i s t h
    exact ih (i + 1) _ _ (priv_step_RRel oracle u i e s t h)

theorem priv_finish_events_RRel (oracle : PrivacyImporter.SearchOracle)
    (u : String) (s t : PrivacyImporter.RunSt) (h : RRel oracle s t) :
    (PrivacyImporter.finish u s).events =
      (PrivacyImporter.finish u t).events := by
  obtain ⟨hit, hev, _, _⟩ := h
  simp only [PrivacyImporter.finish]
  by_cases hpos : 0 < s.items.length
  · rw [if_pos hpos, if_pos (by rw [← hit]; exact hpos)]
    show _ ++ (PrivacyImporter.buildFinalInfos _ u _).map _ =
      _ ++ (PrivacyImporter.buildFinalInfos _ u _).map _
    rw [hit, hev]
  · rw [if_neg hpos, if_neg (by rw [← hit]; exact hpos)]
    exact hev

theorem priv_step_cacheOk (oracle : PrivacyImporter.SearchOracle)
    (u : String) (i : Nat) (e : PrivacyImporter.PrivacyItem)
    (st : PrivacyImporter.RunSt) (hc : CacheOk oracle st.cache) :
    CacheOk oracle (PrivacyImporter.step oracle u i e st).cache := by
  simp only [PrivacyImporter.step]
  split
  · exact priv_processEntry_cacheOk oracle e
      { st with cur := i, log := st.log ++ [Effect.visit i] } hc
  · exact priv_processEntry_cacheOk oracle e
      { st with cur := i, log := st.log ++ [Effect.visit i] } hc

theorem priv_step_bounds (oracle : PrivacyImporter.SearchOracle)
    (u : String) (i : Nat) (e : PrivacyImporter.PrivacyItem)
    (st : PrivacyImporter.RunSt) :
    (PrivacyImporter.step oracle u i e st).bounds = st.bounds ∨
      ((PrivacyImporter.step oracle u i e st).bounds = st.bounds ++
          [⟨(PrivacyImporter.step oracle u i e st).events, i + 1⟩] ∧
        (PrivacyImporter.step oracle u i e st).items = []) := by
  simp only [PrivacyImporter.step]
  split
  · right
    refine ⟨?_, rfl⟩
    show (PrivacyImporter.processEntry oracle e
        { st with cur := i, log := st.log ++ [Effect.visit i] }).bounds ++
        _ = _
    rw [(priv_processEntry_frame oracle e
      { st with cur := i, log := st.log ++ [Effect.visit i] }).2.2.2]
    rw [(priv_processEntry_frame oracle e
      { st with cur := i, log := st.log ++ [Effect.visit i] }).2.1]
    rfl
  · left
    exact (priv_processEntry_frame oracle e
      { st with cur := i, log := st.log ++ [Effect.visit i] }).2.2.2

theorem priv_resume_aux (oracle : PrivacyImporter.SearchOracle) (u : String)
    (elements : List PrivacyImporter.PrivacyItem) :
    ∀ (l : List PrivacyImporter.PrivacyItem) (k : Nat)
      (st : PrivacyImporter.RunSt),
      l = elements.drop k →
      CacheOk oracle st.cache →
      (st.items ≠ [] → st.cur + 1 = k) →
      ∀ p ∈ (PrivacyImporter.finish u
          (PrivacyImporter.runEntries oracle u k l st)).bounds,
        p ∈ st.bounds ∨
          (PrivacyImporter.resumeRun oracle u elements p).events =
            (PrivacyImporter.finish u
              (PrivacyImporter.runEntries oracle u k l st)).events := by
  intro l
  induction l with
  | nil =>
    intro k st hl hc hcur p hp
    have hdrop : elements.drop k = [] := hl.symm
    simp only [PrivacyImporter.runEntries] at hp ⊢
    by_cases hpos : 0 < st.items.length
    · simp only [PrivacyImporter.finish, if_pos hpos] at hp ⊢
      simp only [PrivacyImporter.flush, List.mem_append,
        List.mem_singleton] at hp
      rcases hp with hp | hp
      · exact Or.inl hp
      · right
        subst hp
        have hk : st.cur + 1 = k :=
          hcur (by intro habs; rw [habs] at hpos; simp at hpos)
        show (PrivacyImporter.resumeRun oracle u elements
          ⟨st.events ++ _, st.cur + 1⟩).events = _
        rw [PrivacyImporter.resumeRun]
        rw [hk, hdrop]
        simp only [PrivacyImporter.runEntries, PrivacyImporter.finish]
        rw [if_neg (by simp)]
        rfl
    · simp only [PrivacyImporter.finish, if_neg hpos] at hp ⊢
      exact Or.inl hp
  | cons e rest ih =>
    intro k st hl hc hcur p hp
    have hrest : rest = elements.drop (k + 1) := by
      have h1 : (elements.drop k).drop 1 = elements.drop (k + 1) :=
        List.drop_drop 1 k elements
      rw [← hl] at h1
      simpa using h1
    have hstep := priv_step_cacheOk oracle u k e st hc
    have hcur' : (PrivacyImporter.step oracle u k e st).items ≠ [] →
        (PrivacyImporter.step oracle u k e st).cur + 1 = k + 1 := by
      intro _
      rw [priv_step_cur]
    have hp' : p ∈ (PrivacyImporter.finish u
        (PrivacyImporter.runEntries oracle u (k + 1) rest
          (PrivacyImporter.step oracle u k e st))).bounds := hp
    rcases ih (k + 1) (PrivacyImporter.step oracle u k e st) hrest hstep
      hcur' p hp' with hin | heq
    · rcases priv_step_bounds oracle u k e st with hb | ⟨hb, hempty⟩
      · rw [hb] at hin
        exact Or.inl hin
      · rw [hb] at hin
        rcases List.mem_append.mp hin with hin1 | hin2
        · exact Or.inl hin1
        · right
          rw [List.mem_singleton] at hin2
          subst hin2
          rw [PrivacyImporter.resumeRun]
          rw [show (⟨(PrivacyImporter.step oracle u k e st).events, k + 1⟩
            : PState).checkpoint = k + 1 from rfl]
          rw [← hrest]
          have hrel : RRel oracle
              { cur := (⟨(PrivacyImporter.step oracle u k e st).events,
                  k + 1⟩ : PState).checkpoint,
                items := [], cache := [],
                events := (⟨(PrivacyImporter.step oracle u k e st).events,
                  k + 1⟩ : PState).events,
                cp := (⟨(PrivacyImporter.step oracle u k e st).events,
                  k + 1⟩ : PState).checkpoint,
                log := [],
                bounds := [⟨(PrivacyImporter.step oracle u k e st).events,
                  k + 1⟩] }
              (PrivacyImporter.step oracle u k e st) := by
            refine ⟨?_, rfl, cacheOk_nil oracle, hstep⟩
            rw [hempty]
          exact priv_finish_events_RRel oracle u _ _
            (priv_runEntries_RRel oracle u rest (k + 1) _ _ hrel)
    · exact Or.inr heq

theorem trySearching_no_visit (oracle : PrivacyImporter.SearchOracle)
    (a t : String) (j : Nat) :
    Effect.visit j ∉ (PrivacyImporter.trySearching oracle a t).2 := by
  simp only [PrivacyImporter.trySearching]
  rcases oracle (removeDiacritics t) (removeDiacritics a) with _ | tr
  · rcases oracle (removeDiacritics (beforeParenthesis t))
      (removeDiacritics (beforeParenthesis a)) with _ | tr2 <;> simp
  · simp

theorem priv_processEntry_visits (oracle : PrivacyImporter.SearchOracle)
    (e : PrivacyImporter.PrivacyItem) (st : PrivacyImporter.RunSt)
    (j : Nat) :
    Effect.visit j ∈ (PrivacyImporter.processEntry oracle e st).log →
      Effect.visit j ∈ st.log := by
  simp only [PrivacyImporter.processEntry]
  split
  · exact id
  · rcases hit : alookup st.cache (e.trackName, e.artistName) with _ | v
    · intro h
      rcases List.mem_append.mp h with h1 | h2
      · exact h1
      · rcases List.mem_cons.mp h2 with h3 | h4
        · cases h3
        · exact absurd h4 (trySearching_no_visit oracle e.artistName
            e.trackName j)
    · intro h
      rcases List.mem_append.mp h with h1 | h2
      · exact h1
      · simp at h2

theorem priv_step_visits (oracle : PrivacyImporter.SearchOracle)
    (u : String) (i : Nat) (e : PrivacyImporter.PrivacyItem)
    (st : PrivacyImporter.RunSt) (j : Nat) :
    Effect.visit j ∈ (PrivacyImporter.step oracle u i e st).log →
      Effect.visit j ∈ st.log ∨ j = i := by
  have hbase : Effect.visit j ∈
      ({ st with cur := i, log := st.log ++ [Effect.visit i]
        : PrivacyImporter.RunSt }).log → Effect.visit j ∈ st.log ∨ j = i := by
    intro h
    rcases List.mem_append.mp h with h1 | h2
    · exact Or.inl h1
    · right
      rcases List.mem_singleton.mp h2 with h3
      cases h3
      rfl
  simp only [PrivacyImporter.step]
  split
  · intro h
    rw [priv_flush_log] at h
    rcases List.mem_append.mp h with h1 | h2
    · exact hbase (priv_processEntry_visits oracle e _ j h1)
    · simp at h2
  · intro h
    exact hbase (priv_processEntry_visits oracle e _ j h)

theorem priv_run_visits (oracle : PrivacyImporter.SearchOracle)
    (u : String) :
    ∀ (l : List PrivacyImporter.PrivacyItem) (i : Nat)
      (st : PrivacyImporter.RunSt) (j : Nat),
      Effect.visit j ∈ (PrivacyImporter.runEntries oracle u i l st).log →
      Effect.visit j ∈ st.log ∨ i ≤ j := by
  intro l
  induction l with
  | nil => intro i st j h; exact Or.inl h
  | cons e rest ih =>
    intro i st j h
    rcases ih (i + 1) (PrivacyImporter.step oracle u i e st) j h with h1 | h2
    · rcases priv_step_visits oracle u i e st j h1 with h3 | h4
      · exact Or.inl h3
      · exact Or.inr (by omega)
    · exact Or.inr (by omega)

theorem priv_finish_visits (u : String) (st : PrivacyImporter.RunSt)
    (j : Nat) :
    Effect.visit j ∈ (PrivacyImporter.finish u st).log →
      Effect.visit j ∈ st.log := by
  simp only [PrivacyImporter.finish]
  split
  · intro h
    rw [priv_flush_log] at h
    rcases List.mem_append.mp h with h1 | h2
    · exact h1
    · simp at h2
  · exact id

theorem priv_resume_no_replay (oracle : PrivacyImporter.SearchOracle)
    (u : String) (elements : List PrivacyImporter.PrivacyItem) (p : PState)
    (j : Nat) :
    Effect.visit j ∈ (PrivacyImporter.resumeRun oracle u elements p).log →
      p.checkpoint ≤ j := by
  intro h
  rw [PrivacyImporter.resumeRun] at h
  have h2 := priv_finish_visits u _ j h
  rcases priv_run_visits oracle u (elements.drop p.checkpoint)
    p.checkpoint _ j h2 with h3 | h3
  · simp at h3
  · exact h3

/-- Input of the exact-strategy interruption counterexample: 45 distinct
unresolved ids, then one more new id, then twenty plays of the first id. -/
def interruptedElems : List FullPrivacyImporter.FullPrivacyItem :=
  (List.range 45).map (fun k =>
    ⟨100000 * (k : Int), 40000, some ("tidal:track:T" ++ toString k),
     some "n", some "m"⟩) ++
  [⟨4500000, 40000, some "tidal:track:Q", some "n", some "m"⟩] ++
  (List.range 20).map (fun j =>
    ⟨100000 * ((46 + j : Nat) : Int), 40000, some "tidal:track:T0",
     some "n", some "m"⟩)

/-- Oracle of the exact-strategy interruption counterexample: every id
resolves. -/
def interruptedOracle : FullPrivacyImporter.IdOracle :=
  fun id => some ⟨id, id, 100, ["ar"], "al"⟩

set_option maxRecDepth 10000 in
/-- C1 counterexample: the claim asserts that each batch's event write and
checkpoint advance take effect together and that resuming after any prefix
of batches reproduces the uninterrupted store.  On the code, first, the
cursor write precedes the event write: for a one-entry fuzzy run, replaying
the log prefix that ends right after the setCursor write and resuming loses
the batch entirely (a gap); second, for the exact strategy a kill at a
genuine batch boundary loses the entries whose lookups were still queued
when the checkpoint advanced. -/
theorem claim1_counterexample :
    ((PrivacyImporter.resumeRun
        (fun t a => if t == "S" && a == "A"
          then some ⟨"T", "S", 100, ["ar"], "al"⟩ else none) "u"
        [⟨0, "A", "S", 40000⟩] ⟨[], 0⟩).log.getD 4 (Effect.visit 99) =
      Effect.setCursor 1) ∧
    ((PrivacyImporter.resumeRun
        (fun t a => if t == "S" && a == "A"
          then some ⟨"T", "S", 100, ["ar"], "al"⟩ else none) "u"
        [⟨0, "A", "S", 40000⟩] ⟨[], 0⟩).log.getD 5 (Effect.visit 99) =
      Effect.addEvents [⟨0, "T", "ar", "al", ["ar"], 100000, none⟩]) ∧
    (applyWrites "u" ⟨[], 0⟩
        ((PrivacyImporter.resumeRun
          (fun t a => if t == "S" && a == "A"
            then some ⟨"T", "S", 100, ["ar"], "al"⟩ else none) "u"
          [⟨0, "A", "S", 40000⟩] ⟨[], 0⟩).log.take 5) = ⟨[], 1⟩) ∧
    ((PrivacyImporter.resumeRun
        (fun t a => if t == "S" && a == "A"
          then some ⟨"T", "S", 100, ["ar"], "al"⟩ else none) "u"
        [⟨0, "A", "S", 40000⟩] ⟨[], 1⟩).events = []) ∧
    ((PrivacyImporter.resumeRun
        (fun t a => if t == "S" && a == "A"
          then some ⟨"T", "S", 100, ["ar"], "al"⟩ else none) "u"
        [⟨0, "A", "S", 40000⟩] ⟨[], 0⟩).events =
      [⟨"u", ⟨0, "T", "ar", "al", ["ar"], 100000, none⟩⟩]) ∧
    ((FullPrivacyImporter.resumeRun interruptedOracle "u" interruptedElems
        ⟨[], 0⟩).bounds.length = 4) ∧
    ((FullPrivacyImporter.resumeRun interruptedOracle "u" interruptedElems
        ((FullPrivacyImporter.resumeRun interruptedOracle "u"
          interruptedElems ⟨[], 0⟩).bounds.getD 2 ⟨[], 99⟩)).events ≠
      (FullPrivacyImporter.resumeRun interruptedOracle "u" interruptedElems
        ⟨[], 0⟩).events) := by
  refine ⟨by decide, by decide, by decide, by decide, by decide, ?_, ?_⟩
  · decide
  · decide

/-- C1 as amended: for the fuzzy strategy, killing the run at any batch
boundary (after a batch's event write, or before any batch started) and
resuming from the persisted state yields exactly the stored-event list of
the uninterrupted run, and a resumed run visits no source entry before the
persisted cursor; the checkpoint advance and the event write are, however,
separate writes — a kill between them loses the in-flight batch — and the
exact strategy can additionally lose entries whose lookups were still
queued when a checkpoint advanced (see the counterexample). -/
theorem claim1_resume_from_batch_boundary :
    (∀ (oracle : PrivacyImporter.SearchOracle) (u : String)
        (elements : List PrivacyImporter.PrivacyItem) (E0 : List Event)
        (c0 : Nat) (p : PState),
      p ∈ (PrivacyImporter.resumeRun oracle u elements ⟨E0, c0⟩).bounds →
      (PrivacyImporter.resumeRun oracle u elements p).events =
        (PrivacyImporter.resumeRun oracle u elements ⟨E0, c0⟩).events) ∧
    (∀ (oracle : PrivacyImporter.SearchOracle) (u : String)
        (elements : List PrivacyImporter.PrivacyItem) (p : PState)
        (j : Nat),
      Effect.visit j ∈ (PrivacyImporter.resumeRun oracle u elements p).log →
      p.checkpoint ≤ j) := by
  refine ⟨?_, priv_resume_no_replay⟩
  intro oracle u elements E0 c0 p hp
  rcases priv_resume_aux oracle u elements (elements.drop c0) c0
    { cur := c0, items := [], cache := [], events := E0, cp := c0,
      log := [], bounds := [⟨E0, c0⟩] } rfl (cacheOk_nil oracle)
    (fun habs => absurd rfl habs) p hp with hin | heq
  · rcases List.mem_singleton.mp hin with h
    subst h
    rfl
  · exact heq

/-- Witness for C1: on a concrete one-entry fuzzy run, resuming from the
final batch boundary reproduces the uninterrupted stored events. -/
theorem claim1_witness :
    (PrivacyImporter.resumeRun
      (fun t a => if t == "S" && a == "A"
        then some ⟨"T", "S", 100, ["ar"], "al"⟩ else none) "u"
      [⟨0, "A", "S", 40000⟩]
      ⟨[⟨"u", ⟨0, "T", "ar", "al", ["ar"], 100000, none⟩⟩], 1⟩).events =
    (PrivacyImporter.resumeRun
      (fun t a => if t == "S" && a == "A"
        then some ⟨"T", "S", 100, ["ar"], "al"⟩ else none) "u"
      [⟨0, "A", "S", 40000⟩] ⟨[], 0⟩).events := by
  exact claim1_resume_from_batch_boundary.1
    (fun t a => if t == "S" && a == "A"
      then some ⟨"T", "S", 100, ["ar"], "al"⟩ else none) "u"
    [⟨0, "A", "S", 40000⟩] [] 0
    ⟨[⟨"u", ⟨0, "T", "ar", "al", ["ar"], 100000, none⟩⟩], 1⟩ (by decide)

/-! Claim C4. -/

/-- C4 counterexample: the claim asserts that resolution searches with the
exact (literal) name pair first.  On the code, the very first search query
already has diacritics stripped: for the track name with an accented
character the first query differs from the literal name. -/
theorem claim4_counterexample :
    ((PrivacyImporter.trySearching (fun _ _ => none) "A" "Café").2.head? =
      some (Effect.searchCall "Cafe" "A")) ∧
    ("Cafe" : String) ≠ "Café" := by
  decide

/-- C4 as amended: fuzzy resolution searches with the diacritic-stripped
names first; on a miss it retries once with the diacritic-stripped,
trailing-parenthetical-stripped names; on a further miss the pair is marked
not-found; a not-found cache entry makes later entries with the same name
pair a pure cache lookup with no search and no batch growth; and a cache
miss stores the search outcome, positive or negative, in the cache. -/
theorem claim4_search_attempt_order :
    (∀ (oracle : PrivacyImporter.SearchOracle) (a t : String),
      (PrivacyImporter.trySearching oracle a t).2.head? =
        some (Effect.searchCall (removeDiacritics t) (removeDiacritics a))) ∧
    (∀ (oracle : PrivacyImporter.SearchOracle) (a t : String)
        (tr : TidalTrack),
      oracle (removeDiacritics t) (removeDiacritics a) = some tr →
      PrivacyImporter.trySearching oracle a t =
        (CacheVal.found tr,
         [Effect.searchCall (removeDiacritics t) (removeDiacritics a)])) ∧
    (∀ (oracle : PrivacyImporter.SearchOracle) (a t : String)
        (tr : TidalTrack),
      oracle (removeDiacritics t) (removeDiacritics a) = none →
      oracle (removeDiacritics (beforeParenthesis t))
        (removeDiacritics (beforeParenthesis a)) = some tr →
      PrivacyImporter.trySearching oracle a t =
        (CacheVal.found tr,
         [Effect.searchCall (removeDiacritics t) (removeDiacritics a),
          Effect.searchCall (removeDiacritics (beforeParenthesis t))
            (removeDiacritics (beforeParenthesis a))])) ∧
    (∀ (oracle : PrivacyImporter.SearchOracle) (a t : String),
      oracle (removeDiacritics t) (removeDiacritics a) = none →
      oracle (removeDiacritics (beforeParenthesis t))
        (removeDiacritics (beforeParenthesis a)) = none →
      PrivacyImporter.trySearching oracle a t =
        (CacheVal.notFound,
         [Effect.searchCall (removeDiacritics t) (removeDiacritics a),
          Effect.searchCall (removeDiacritics (beforeParenthesis t))
            (removeDiacritics (beforeParenthesis a))])) ∧
    (∀ (oracle : PrivacyImporter.SearchOracle)
        (e : PrivacyImporter.PrivacyItem) (st : PrivacyImporter.RunSt),
      ¬(e.msPlayed < 30 * 1000) →
      alookup st.cache (e.trackName, e.artistName) =
        some CacheVal.notFound →
      PrivacyImporter.processEntry oracle e st =
        { st with log := st.log ++
            [Effect.cacheLookupName e.trackName e.artistName] }) ∧
    (∀ (oracle : PrivacyImporter.SearchOracle)
        (e : PrivacyImporter.PrivacyItem) (st : PrivacyImporter.RunSt),
      ¬(e.msPlayed < 30 * 1000) →
      alookup st.cache (e.trackName, e.artistName) = none →
      (PrivacyImporter.processEntry oracle e st).cache =
        st.cache ++ [((e.trackName, e.artistName),
          (PrivacyImporter.trySearching oracle e.artistName e.trackName).1)]) := by
  refine ⟨?_, ?_, ?_, ?_, ?_, ?_⟩
  · intro oracle a t
    simp only [PrivacyImporter.trySearching]
    rcases oracle (removeDiacritics t) (removeDiacritics a) with _ | tr
    · rcases oracle (removeDiacritics (beforeParenthesis t))
        (removeDiacritics (beforeParenthesis a)) with _ | tr2 <;> rfl
    · rfl
  · intro oracle a t tr h1
    simp only [PrivacyImporter.trySearching, h1]
  · intro oracle a t tr h1 h2
    simp only [PrivacyImporter.trySearching, h1, h2]
  · intro oracle a t h1 h2
    simp only [PrivacyImporter.trySearching, h1, h2]
  · intro oracle e st hms hcache
    simp only [PrivacyImporter.processEntry]
    rw [if_neg hms]
    simp only [hcache]
    simp
  · intro oracle e st hms hcache
    simp only [PrivacyImporter.processEntry]
    rw [if_neg hms]
    simp only [hcache]

/-- Witness for C4: with an oracle that misses every query, a parenthesised
track name is searched twice, first diacritic-stripped, then additionally
parenthetical-stripped, and is then marked not-found. -/
theorem claim4_witness :
    PrivacyImporter.trySearching (fun _ _ => none) "Artist" "Song (Live)" =
      (CacheVal.notFound,
       [Effect.searchCall "Song (Live)" "Artist",
        Effect.searchCall "Song" "Artist"]) := by
  exact claim4_search_attempt_order.2.2.2.1 (fun _ _ => none)
    "Artist" "Song (Live)" rfl rfl

/-! Claim C5. -/

theorem priv_processEntry_short (oracle : PrivacyImporter.SearchOracle)
    (e : PrivacyImporter.PrivacyItem) (st : PrivacyImporter.RunSt)
    (h : e.msPlayed < 30 * 1000) :
    PrivacyImporter.processEntry oracle e st = st := by
  simp only [PrivacyImporter.processEntry]
  rw [if_pos h]

theorem fullpriv_processEntry_short (oracle : FullPrivacyImporter.IdOracle)
    (e : FullPrivacyImporter.FullPrivacyItem) (st : FullPrivacyImporter.FRunSt)
    (h : e.ms_played < 30 * 1000) :
    FullPrivacyImporter.processEntry oracle e st = st := by
  simp only [FullPrivacyImporter.processEntry]
  rcases hu : e.tidal_track_uri with _ | uri <;>
    rcases h1 : e.master_metadata_track_name with _ | n1 <;>
      rcases h2 : e.master_metadata_album_artist_name with _ | n2 <;>
        simp [h]

theorem priv_short_run_aux (oracle : PrivacyImporter.SearchOracle)
    (u : String) :
    ∀ (l : List PrivacyImporter.PrivacyItem) (i : Nat)
      (st : PrivacyImporter.RunSt),
      (∀ e ∈ l, e.msPlayed < 30 * 1000) → st.items = [] →
      ∃ (c : Nat) (lg : List Effect),
        PrivacyImporter.runEntries oracle u i l st =
          { st with cur := c, log := st.log ++ lg } ∧
        ∀ ef ∈ lg, ef.isVisit = true := by
  intro l
  induction l with
  | nil =>
    intro i st _ _
    refine ⟨st.cur, [], ?_, by simp⟩
    simp only [List.append_nil]
    rfl
  | cons e rest ih =>
    intro i st hshort hitems
    have hstep : PrivacyImporter.step oracle u i e st =
        { st with cur := i, log := st.log ++ [.visit i] } := by
      simp only [PrivacyImporter.step]
      rw [priv_processEntry_short oracle e _ (hshort e (by simp))]
      rw [if_neg (by simp [hitems])]
    have hrest : ∀ e ∈ rest, e.msPlayed < 30 * 1000 :=
      fun x hx => hshort x (by simp [hx])
    obtain ⟨c, lg, heq, hv⟩ := ih (i + 1)
      { st with cur := i, log := st.log ++ [.visit i] } hrest (by simp [hitems])
    refine ⟨c, Effect.visit i :: lg, ?_, ?_⟩
    · show PrivacyImporter.runEntries oracle u (i + 1) rest
          (PrivacyImporter.step oracle u i e st) = _
      rw [hstep, heq]
      simp
    · intro ef hef
      rcases List.mem_cons.mp hef with rfl | h
      · rfl
      · exact hv ef h

theorem fullpriv_short_run_aux (oracle : FullPrivacyImporter.IdOracle)
    (u : String) :
    ∀ (l : List FullPrivacyImporter.FullPrivacyItem) (i : Nat)
      (st : FullPrivacyImporter.FRunSt),
      (∀ e ∈ l, e.ms_played < 30 * 1000) → st.items = [] →
      ∃ (c : Nat) (lg : List Effect),
        FullPrivacyImporter.runEntries oracle u i l st =
          { st with cur := c, log := st.log ++ lg } ∧
        ∀ ef ∈ lg, ef.isVisit = true := by
  intro l
  induction l with
  | nil =>
    intro i st _ _
    refine ⟨st.cur, [], ?_, by simp⟩
    simp only [List.append_nil]
    rfl
  | cons e rest ih =>
    intro i st hshort hitems
    have hstep : FullPrivacyImporter.step oracle u i e st =
        { st with cur := i, log := st.log ++ [.visit i] } := by
      simp only [FullPrivacyImporter.step]
      rw [fullpriv_processEntry_short oracle e _ (hshort e (by simp))]
      rw [if_neg (by simp [hitems])]
    have hrest : ∀ e ∈ rest, e.ms_played < 30 * 1000 :=
      fun x hx => hshort x (by simp [hx])
    obtain ⟨c, lg, heq, hv⟩ := ih (i + 1)
      { st with cur := i, log := st.log ++ [.visit i] } hrest (by simp [hitems])
    refine ⟨c, Effect.visit i :: lg, ?_, ?_⟩
    · show FullPrivacyImporter.runEntries oracle u (i + 1) rest
          (FullPrivacyImporter.step oracle u i e st) = _
      rw [hstep, heq]
      simp
    · intro ef hef
      rcases List.mem_cons.mp hef with rfl | h
      · rfl
      · exact hv ef h

/-- C5: an import entry played for less than 30000 ms is a complete no-op
for either strategy: the loop body leaves the run state untouched (no cache
lookup, search, metadata fetch, cursor or event write, and no batch growth),
and a run whose entries are all below the threshold ends with the store
unchanged and a log holding nothing but the per-entry visit markers. -/
theorem claim5_short_plays_are_noops :
    (∀ (oracle : PrivacyImporter.SearchOracle)
        (e : PrivacyImporter.PrivacyItem) (st : PrivacyImporter.RunSt),
      e.msPlayed < 30 * 1000 →
      PrivacyImporter.processEntry oracle e st = st) ∧
    (∀ (oracle : FullPrivacyImporter.IdOracle)
        (e : FullPrivacyImporter.FullPrivacyItem)
        (st : FullPrivacyImporter.FRunSt),
      e.ms_played < 30 * 1000 →
      FullPrivacyImporter.processEntry oracle e st = st) ∧
    (∀ (oracle : PrivacyImporter.SearchOracle) (u : String)
        (elements : List PrivacyImporter.PrivacyItem) (E0 : List Event)
        (c0 : Nat),
      (∀ e ∈ elements, e.msPlayed < 30 * 1000) →
      (PrivacyImporter.resumeRun oracle u elements ⟨E0, c0⟩).events = E0 ∧
      (PrivacyImporter.resumeRun oracle u elements ⟨E0, c0⟩).log.filter
        (fun ef => !ef.isVisit) = []) ∧
    (∀ (oracle : FullPrivacyImporter.IdOracle) (u : String)
        (elements : List FullPrivacyImporter.FullPrivacyItem)
        (E0 : List Event) (c0 : Nat),
      (∀ e ∈ elements, e.ms_played < 30 * 1000) →
      (FullPrivacyImporter.resumeRun oracle u elements ⟨E0, c0⟩).events = E0 ∧
      (FullPrivacyImporter.resumeRun oracle u elements ⟨E0, c0⟩).log.filter
        (fun ef => !ef.isVisit) = []) := by
  refine ⟨priv_processEntry_short, fullpriv_processEntry_short, ?_, ?_⟩
  · intro oracle u elements E0 c0 hshort
    obtain ⟨c, lg, heq, hv⟩ := priv_short_run_aux oracle u
      (elements.drop c0) c0
      { cur := c0, items := [], cache := [], events := E0, cp := c0,
        log := [], bounds := [⟨E0, c0⟩] }
      (fun e he => hshort e (List.drop_subset c0 elements he)) rfl
    rw [PrivacyImporter.resumeRun]
    rw [heq]
    rw [PrivacyImporter.finish]
    rw [if_neg (by simp)]
    refine ⟨rfl, List.filter_eq_nil_iff.mpr ?_⟩
    intro ef hef
    simp only [List.nil_append] at hef
    simp [hv ef hef]
  · intro oracle u elements E0 c0 hshort
    obtain ⟨c, lg, heq, hv⟩ := fullpriv_short_run_aux oracle u
      (elements.drop c0) c0
      { cur := c0, items := [], cache := [], idsToSearch := [],
        events := E0, cp := c0, log := [], bounds := [⟨E0, c0⟩] }
      (fun e he => hshort e (List.drop_subset c0 elements he)) rfl
    rw [FullPrivacyImporter.resumeRun]
    rw [heq]
    rw [FullPrivacyImporter.finish]
    rw [fullpriv_checkIds_empty oracle true _ rfl]
    rw [if_neg (by simp)]
    refine ⟨rfl, List.filter_eq_nil_iff.mpr ?_⟩
    intro ef hef
    simp only [List.nil_append] at hef
    simp [hv ef hef]

/-- Witness for C5: a concrete two-entry file of 10 and 29.999 second plays
stores nothing and performs no action beyond visiting the entries. -/
theorem claim5_witness :
    (PrivacyImporter.resumeRun (fun _ _ => none) "u"
      [⟨0, "A", "S", 10000⟩, ⟨50, "B", "S2", 29999⟩] ⟨[], 0⟩).events = [] ∧
    (PrivacyImporter.resumeRun (fun _ _ => none) "u"
      [⟨0, "A", "S", 10000⟩, ⟨50, "B", "S2", 29999⟩] ⟨[], 0⟩).log.filter
      (fun ef => !ef.isVisit) = [] := by
  exact claim5_short_plays_are_noops.2.2.1 (fun _ _ => none) "u"
    [⟨0, "A", "S", 10000⟩, ⟨50, "B", "S2", 29999⟩] [] 0 (by decide)

/-! Claim C6. -/

/-- C6 counterexample: the claim asserts that two batch entries collapse
only when they are plays of the same track within the window.  On the code,
a batch of two plays of two different tracks at the same instant collapses
to one: the in-batch check compares timestamps only and ignores the track
id. -/
theorem claim6_counterexample :
    PrivacyImporter.buildFinalInfos [] "u"
        [⟨⟨"A", "a", 100, ["ar1"], "al1"⟩, 0⟩,
         ⟨⟨"B", "b", 100, ["ar2"], "al2"⟩, 0⟩] =
      [⟨0, "A", "ar1", "al1", ["ar1"], 100000, none⟩] ∧
    ("A" : String) ≠ "B" := by
  decide

/-- C6 as amended: the query against the store does consider only events of
the same owner and the same track id (a single-item batch is dropped exactly
when such an event lies within 60 seconds, or when the item has no artist);
the in-flight batch check, however, collapses a candidate with any already
kept entry of the batch within 60 seconds regardless of its track id, in
both importers. -/
theorem claim6_dedup_scope :
    (∀ (store : List Event) (owner : String) (tr : TidalTrack) (ts : Int),
      PrivacyImporter.buildFinalInfos store owner [⟨tr, ts⟩] = [] ↔
        (∃ e ∈ store, e.owner = owner ∧ e.info.id = tr.id ∧
          (e.info.played_at - ts).natAbs ≤ 60 * 1000) ∨ tr.artistIds = []) ∧
    (∀ (store : List Event) (owner : String) (tr : TidalTrack) (ts : Int),
      FullPrivacyImporter.buildFinalInfos store owner [⟨tr, ts⟩] = [] ↔
        (∃ e ∈ store, e.owner = owner ∧ e.info.id = tr.id ∧
          (e.info.played_at - ts).natAbs ≤ 60 * 1000) ∨ tr.artistIds = []) ∧
    (∀ (owner : String) (t1 t2 : TidalTrack) (ts1 ts2 : Int),
      t1.artistIds ≠ [] → t2.artistIds ≠ [] →
      (PrivacyImporter.buildFinalInfos [] owner
          [⟨t1, ts1⟩, ⟨t2, ts2⟩]).length =
        if (ts1 - ts2).natAbs ≤ 60 * 1000 then 1 else 2) ∧
    (∀ (owner : String) (t1 t2 : TidalTrack) (ts1 ts2 : Int),
      t1.artistIds ≠ [] → t2.artistIds ≠ [] →
      (FullPrivacyImporter.buildFinalInfos [] owner
          [⟨t1, ts1⟩, ⟨t2, ts2⟩]).length =
        if (ts1 - ts2).natAbs ≤ 60 * 1000 then 1 else 2) := by
  refine ⟨?_, ?_, ?_, ?_⟩
  · intro store owner tr ts
    simp only [PrivacyImporter.buildFinalInfos,
      PrivacyImporter.storeItemsDedup, List.foldl,
      PrivacyImporter.storeItemsStep]
    by_cases hd : 0 < (getCloseTrackId store owner tr.id ts 60).length
    · rw [if_pos (Or.inl hd)]
      exact iff_of_true rfl
        (Or.inl ((getCloseTrackId_length_pos_iff store owner tr.id ts 60).mp
          hd))
    · rw [if_neg (by simp [hd])]
      rcases hart : tr.artistIds with _ | ⟨a, rest⟩
      · exact iff_of_true rfl (Or.inr rfl)
      · refine iff_of_false (by simp) ?_
        rintro (⟨e, he, ho, hid, hw⟩ | habs)
        · exact hd ((getCloseTrackId_length_pos_iff store owner tr.id ts
            60).mpr ⟨e, he, ho, hid, hw⟩)
        · cases habs
  · intro store owner tr ts
    simp only [FullPrivacyImporter.buildFinalInfos,
      FullPrivacyImporter.storeItemsDedup, List.foldl,
      FullPrivacyImporter.storeItemsStep]
    by_cases hd : 0 < (getCloseTrackId store owner tr.id ts 60).length
    · rw [if_pos (Or.inl hd)]
      exact iff_of_true rfl
        (Or.inl ((getCloseTrackId_length_pos_iff store owner tr.id ts 60).mp
          hd))
    · rw [if_neg (by simp [hd])]
      rcases hart : tr.artistIds with _ | ⟨a, rest⟩
      · exact iff_of_true rfl (Or.inr rfl)
      · refine iff_of_false (by simp) ?_
        rintro (⟨e, he, ho, hid, hw⟩ | habs)
        · exact hd ((getCloseTrackId_length_pos_iff store owner tr.id ts
            60).mpr ⟨e, he, ho, hid, hw⟩)
        · cases habs
  · intro owner t1 t2 ts1 ts2 h1 h2
    obtain ⟨a1, r1, hart1⟩ := List.exists_cons_of_ne_nil h1
    obtain ⟨a2, r2, hart2⟩ := List.exists_cons_of_ne_nil h2
    simp only [PrivacyImporter.buildFinalInfos,
      PrivacyImporter.storeItemsDedup, List.foldl,
      PrivacyImporter.storeItemsStep, getCloseTrackId, List.filter, hart1,
      hart2, List.find?]
    by_cases hts : (ts1 - ts2).natAbs ≤ 60 * 1000
    · simp [hts]
    · simp [hts]
  · intro owner t1 t2 ts1 ts2 h1 h2
    obtain ⟨a1, r1, hart1⟩ := List.exists_cons_of_ne_nil h1
    obtain ⟨a2, r2, hart2⟩ := List.exists_cons_of_ne_nil h2
    simp only [FullPrivacyImporter.buildFinalInfos,
      FullPrivacyImporter.storeItemsDedup, List.foldl,
      FullPrivacyImporter.storeItemsStep, getCloseTrackId, List.filter,
      hart1, hart2, List.find?]
    by_cases hts : (ts1 - ts2).natAbs ≤ 60 * 1000
    · simp [hts]
    · simp [hts]

/-- Witness for C6: a concrete store event of a different track does not
drop a single-item batch, and two same-instant different-track entries
collapse. -/
theorem claim6_witness :
    (¬ PrivacyImporter.buildFinalInfos
        [⟨"u", ⟨0, "OTHER", "ar", "al", ["ar"], 100000, none⟩⟩] "u"
        [⟨⟨"A", "a", 100, ["ar1"], "al1"⟩, 0⟩] = []) ∧
    (PrivacyImporter.buildFinalInfos [] "u"
        [⟨⟨"A", "a", 100, ["ar1"], "al1"⟩, 0⟩,
         ⟨⟨"B", "b", 100, ["ar2"], "al2"⟩, 0⟩]).length = 1 := by
  constructor
  · intro h
    rcases (claim6_dedup_scope.1
        [⟨"u", ⟨0, "OTHER", "ar", "al", ["ar"], 100000, none⟩⟩] "u"
        ⟨"A", "a", 100, ["ar1"], "al1"⟩ 0).mp h with ⟨e, he, _, hid, _⟩ | habs
    · simp only [List.mem_singleton] at he
      rw [he] at hid
      exact absurd hid (by decide)
    · exact absurd habs (by decide)
  · have h := claim6_dedup_scope.2.2.1 "u"
      ⟨"A", "a", 100, ["ar1"], "al1"⟩ ⟨"B", "b", 100, ["ar2"], "al2"⟩ 0 0
      (by decide) (by decide)
    simpa using h

/-! Claim C7. -/

theorem priv_step_snd (store : List Event) (owner : String)
    (acc : List Infos × List DedupQuery) (it : TrackItem) :
    (PrivacyImporter.storeItemsStep store owner acc it).2 =
      acc.2 ++ [⟨owner, it.track.id, it.played_at, 60⟩] := by
  simp only [PrivacyImporter.storeItemsStep]
  split
  · rfl
  · split <;> rfl

theorem fullpriv_step_snd (store : List Event) (owner : String)
    (acc : List Infos × List DedupQuery) (it : TrackItem) :
    (FullPrivacyImporter.storeItemsStep store owner acc it).2 =
      acc.2 ++ [⟨owner, it.track.id, it.played_at, 60⟩] := by
  simp only [FullPrivacyImporter.storeItemsStep]
  split
  · rfl
  · split <;> rfl

theorem sync_step_snd (store : List Event) (owner : String)
    (blacklist : List String) (acc : List Infos × List DedupQuery)
    (it : TrackItem) :
    (SyncLoop.loopInfosStep store owner blacklist acc it).2 =
      acc.2 ++ [⟨owner, it.track.id, it.played_at, 30⟩] := by
  simp only [SyncLoop.loopInfosStep]
  split
  · split <;> rfl
  · rfl

theorem priv_queries_aux (store : List Event) (owner : String)
    (items : List TrackItem) :
    ∀ acc, (items.foldl (PrivacyImporter.storeItemsStep store owner) acc).2 =
      acc.2 ++ items.map (fun it => ⟨owner, it.track.id, it.played_at, 60⟩) := by
  induction items with
  | nil => intro acc; simp
  | cons x xs ih =>
    intro acc
    simp only [List.foldl, List.map_cons]
    rw [ih, priv_step_snd]
    simp

theorem fullpriv_queries_aux (store : List Event) (owner : String)
    (items : List TrackItem) :
    ∀ acc,
      (items.foldl (FullPrivacyImporter.storeItemsStep store owner) acc).2 =
      acc.2 ++ items.map (fun it => ⟨owner, it.track.id, it.played_at, 60⟩) := by
  induction items with
  | nil => intro acc; simp
  | cons x xs ih =>
    intro acc
    simp only [List.foldl, List.map_cons]
    rw [ih, fullpriv_step_snd]
    simp

theorem sync_queries_aux (store : List Event) (owner : String)
    (blacklist : List String) (items : List TrackItem) :
    ∀ acc,
      (items.foldl (SyncLoop.loopInfosStep store owner blacklist) acc).2 =
      acc.2 ++ items.map (fun it => ⟨owner, it.track.id, it.played_at, 30⟩) := by
  induction items with
  | nil => intro acc; simp
  | cons x xs ih =>
    intro acc
    simp only [List.foldl, List.map_cons]
    rw [ih, sync_step_snd]
    simp

/-- C7: the dedup window differs by caller: the live sync loop issues
exactly one store query per fetched item, always with a 30 second window,
while both import strategies issue exactly one store query per batch item,
always with a 60 second window. -/
theorem claim7_dedup_windows :
    (∀ (store : List Event) (owner : String) (blacklist : List String)
        (items : List TrackItem),
      (SyncLoop.loopInfosDedup store owner blacklist items).2 =
        items.map (fun it => ⟨owner, it.track.id, it.played_at, 30⟩)) ∧
    (∀ (store : List Event) (owner : String) (items : List TrackItem),
      (PrivacyImporter.storeItemsDedup store owner items).2 =
        items.map (fun it => ⟨owner, it.track.id, it.played_at, 60⟩)) ∧
    (∀ (store : List Event) (owner : String) (items : List TrackItem),
      (FullPrivacyImporter.storeItemsDedup store owner items).2 =
        items.map (fun it => ⟨owner, it.track.id, it.played_at, 60⟩)) := by
  refine ⟨fun store owner blacklist items => ?_, fun store owner items => ?_,
    fun store owner items => ?_⟩
  · rw [SyncLoop.loopInfosDedup, sync_queries_aux]
    rfl
  · rw [PrivacyImporter.storeItemsDedup, priv_queries_aux]
    rfl
  · rw [FullPrivacyImporter.storeItemsDedup, fullpriv_queries_aux]
    rfl

/-- Witness for C2: on a concrete store already holding the play, the fuzzy
importer drops a second copy of the same play. -/
theorem claim2_witness :
    PrivacyImporter.buildFinalInfos
      [⟨"u", ⟨1000, "T", "ar", "al", ["ar"], 100000, none⟩⟩] "u"
      [⟨⟨"T", "t", 100, ["ar"], "al"⟩, 2000⟩] = [] := by
  exact claim2_store_paths_deduplicate.1
    [⟨"u", ⟨1000, "T", "ar", "al", ["ar"], 100000, none⟩⟩] "u"
    ⟨"T", "t", 100, ["ar"], "al"⟩ 2000
    ⟨"u", ⟨1000, "T", "ar", "al", ["ar"], 100000, none⟩⟩
    (by decide) (by decide) (by decide) (by decide)

end YourTidal
